import Mathlib

/-!
Verification development for the `landmass` navigation-mesh runtime.

The Rust sources are shallowly embedded over exact rational arithmetic
(the fraction type `Qx` below, in place of `f32`; on every concrete
input appearing below all `f32` computations of the source are exact,
so the models agree with the floating-point execution).  Panics
(`unwrap`, `expect`, indexing) are modelled by `Option`: a `none`
result marks a panic of the source.

The repository contains two generations of the library:
* `src/src/*` (modelled in namespace `CoreV1`): `path.rs`, `agent.rs`,
  `nav_mesh.rs`, `pathfinding.rs`.
* `crates/landmass/src/*` (modelled in namespace `LM`): `pathfinding.rs`,
  `island.rs`, `query.rs`.
Modules referenced but absent from the sources (`nav_data.rs`,
`astar.rs`, `util.rs`, the newer `nav_mesh.rs`) are modelled from the
specification; each such definition carries a doc comment saying so.
-/

/-- An exact fraction `num / den`, standing for `f32` values (all
`f32` arithmetic performed by the source on the inputs considered here
is exact).  The representation is not reduced; every constructor and
operation below keeps the denominator positive, and the lemmas
`Qx.toRat_add` … `Qx.lt_iff_toRat` prove the operations agree with
rational arithmetic under that discipline.  Unlike `ℚ`, all operations
reduce inside the kernel, so concrete runs can be settled by `decide`. -/
structure Qx where
  num : ℤ
  den : ℤ
deriving DecidableEq, Repr

namespace Qx

/-- The rational value of a fraction. -/
def toRat (a : Qx) : ℚ := (a.num : ℚ) / (a.den : ℚ)

instance (n : ℕ) : OfNat Qx n := ⟨⟨n, 1⟩⟩

instance : Neg Qx := ⟨fun a => ⟨-a.num, a.den⟩⟩

instance : Add Qx :=
  ⟨fun a b => ⟨a.num * b.den + b.num * a.den, a.den * b.den⟩⟩

instance : Sub Qx :=
  ⟨fun a b => ⟨a.num * b.den - b.num * a.den, a.den * b.den⟩⟩

instance : Mul Qx := ⟨fun a b => ⟨a.num * b.num, a.den * b.den⟩⟩

instance : LT Qx := ⟨fun a b => a.num * b.den < b.num * a.den⟩

instance : LE Qx := ⟨fun a b => a.num * b.den ≤ b.num * a.den⟩

instance (a b : Qx) : Decidable (a < b) :=
  inferInstanceAs (Decidable (a.num * b.den < b.num * a.den))

instance (a b : Qx) : Decidable (a ≤ b) :=
  inferInstanceAs (Decidable (a.num * b.den ≤ b.num * a.den))

/-- Positive-denominator discipline: every fraction the embedding
builds satisfies it. -/
def Pos (a : Qx) : Prop := 0 < a.den

theorem pos_ofNat (n : ℕ) : Pos (OfNat.ofNat n : Qx) := Int.zero_lt_one

theorem pos_neg {a : Qx} (ha : Pos a) : Pos (-a) := ha

theorem pos_add {a b : Qx} (ha : Pos a) (hb : Pos b) : Pos (a + b) :=
  mul_pos ha hb

theorem pos_sub {a b : Qx} (ha : Pos a) (hb : Pos b) : Pos (a - b) :=
  mul_pos ha hb

theorem pos_mul {a b : Qx} (ha : Pos a) (hb : Pos b) : Pos (a * b) :=
  mul_pos ha hb

theorem toRat_ofNat (n : ℕ) : (OfNat.ofNat n : Qx).toRat = n := by
  show ((n : ℤ) : ℚ) / ((1 : ℤ) : ℚ) = n
  norm_num

theorem toRat_neg (a : Qx) : (-a).toRat = -a.toRat := by
  show ((-a.num : ℤ) : ℚ) / (a.den : ℚ) = -((a.num : ℚ) / (a.den : ℚ))
  rw [Int.cast_neg, neg_div]

theorem toRat_add {a b : Qx} (ha : Pos a) (hb : Pos b) :
    (a + b).toRat = a.toRat + b.toRat := by
  have ha' : (a.den : ℚ) ≠ 0 := Int.cast_ne_zero.mpr (ne_of_gt ha)
  have hb' : (b.den : ℚ) ≠ 0 := Int.cast_ne_zero.mpr (ne_of_gt hb)
  show ((a.num * b.den + b.num * a.den : ℤ) : ℚ) / ((a.den * b.den : ℤ) : ℚ) =
    (a.num : ℚ) / (a.den : ℚ) + (b.num : ℚ) / (b.den : ℚ)
  push_cast
  field_simp

theorem toRat_sub {a b : Qx} (ha : Pos a) (hb : Pos b) :
    (a - b).toRat = a.toRat - b.toRat := by
  have ha' : (a.den : ℚ) ≠ 0 := Int.cast_ne_zero.mpr (ne_of_gt ha)
  have hb' : (b.den : ℚ) ≠ 0 := Int.cast_ne_zero.mpr (ne_of_gt hb)
  show ((a.num * b.den - b.num * a.den : ℤ) : ℚ) / ((a.den * b.den : ℤ) : ℚ) =
    (a.num : ℚ) / (a.den : ℚ) - (b.num : ℚ) / (b.den : ℚ)
  push_cast
  field_simp
  ring

theorem toRat_mul {a b : Qx} (ha : Pos a) (hb : Pos b) :
    (a * b).toRat = a.toRat * b.toRat := by
  have ha' : (a.den : ℚ) ≠ 0 := Int.cast_ne_zero.mpr (ne_of_gt ha)
  have hb' : (b.den : ℚ) ≠ 0 := Int.cast_ne_zero.mpr (ne_of_gt hb)
  show ((a.num * b.num : ℤ) : ℚ) / ((a.den * b.den : ℤ) : ℚ) =
    (a.num : ℚ) / (a.den : ℚ) * ((b.num : ℚ) / (b.den : ℚ))
  push_cast
  field_simp

theorem lt_iff_toRat {a b : Qx} (ha : Pos a) (hb : Pos b) :
    a < b ↔ a.toRat < b.toRat := by
  have ha' : (0 : ℚ) < (a.den : ℚ) := by exact_mod_cast ha
  have hb' : (0 : ℚ) < (b.den : ℚ) := by exact_mod_cast hb
  rw [toRat, toRat, div_lt_div_iff₀ ha' hb']
  exact ⟨fun h => by exact_mod_cast h, fun h => by exact_mod_cast h⟩

theorem le_iff_toRat {a b : Qx} (ha : Pos a) (hb : Pos b) :
    a ≤ b ↔ a.toRat ≤ b.toRat := by
  have ha' : (0 : ℚ) < (a.den : ℚ) := by exact_mod_cast ha
  have hb' : (0 : ℚ) < (b.den : ℚ) := by exact_mod_cast hb
  rw [toRat, toRat, div_le_div_iff₀ ha' hb']
  exact ⟨fun h => by exact_mod_cast h, fun h => by exact_mod_cast h⟩

/-- `f32::min` on exact values. -/
def fmin (a b : Qx) : Qx := if a ≤ b then a else b

/-- `f32::max` on exact values. -/
def fmax (a b : Qx) : Qx := if b ≤ a then a else b

end Qx

/-- A 3d vector with rational coordinates, standing for `glam::Vec3`.
The Y component is up. -/
structure Vec3q where
  x : Qx
  y : Qx
  z : Qx
deriving DecidableEq, Repr

namespace Vec3q

/-- The zero vector (`Vec3::ZERO`). -/
def zero : Vec3q := ⟨0, 0, 0⟩

/-- Componentwise subtraction. -/
def sub (a b : Vec3q) : Vec3q := ⟨a.x - b.x, a.y - b.y, a.z - b.z⟩

/-- `Vec3::distance_squared`: squared Euclidean distance. -/
def distance_squared (a b : Vec3q) : Qx :=
  (a.x - b.x) * (a.x - b.x) + (a.y - b.y) * (a.y - b.y) +
    (a.z - b.z) * (a.z - b.z)

end Vec3q

/-- Modelled from the spec: `util.rs` (absent from the sources) defines
`Transform` as a translation plus a yaw rotation about the Y axis
(`apply(p) = rotate_y(p, yaw) + translation`).  The yaw angle is
represented by its cosine and sine so that the model stays inside `Qx`;
the identity transform is `⟨0, 1, 0⟩`-style (`cos = 1`, `sin = 0`). -/
structure Transform where
  translation : Vec3q
  rot_cos : Qx
  rot_sin : Qx
deriving DecidableEq, Repr

/-- Modelled from the spec: `Transform::apply` rotates about Y by the
yaw then translates. -/
def Transform.apply (t : Transform) (p : Vec3q) : Vec3q :=
  ⟨t.rot_cos * p.x + t.rot_sin * p.z + t.translation.x,
   p.y + t.translation.y,
   -t.rot_sin * p.x + t.rot_cos * p.z + t.translation.z⟩

/-- The identity transform (`translation: Vec3::ZERO, rotation: 0.0`). -/
def Transform.identity : Transform := ⟨Vec3q.zero, 1, 0⟩

/-- Modelled from the spec: `NodeRef` (declared in the absent
`nav_data.rs`) is `(island_id, polygon_index)`, a node of the combined
graph.  Island ids are modelled as naturals. -/
structure NodeRef where
  island_id : ℕ
  polygon_index : ℕ
deriving DecidableEq, Repr

namespace CoreV1

/-- `triangle_area_2` from `src/src/path.rs`: twice the signed area of
the triangle (on the XZ plane), `(p1 - p0).xz().perp_dot((p2 - p0).xz())`. -/
def triangle_area_2 (point_0 point_1 point_2 : Vec3q) : Qx :=
  (point_1.x - point_0.x) * (point_2.z - point_0.z) -
    (point_1.z - point_0.z) * (point_2.x - point_0.x)

/-- `Connectivity` from `src/src/nav_mesh.rs`. -/
structure Connectivity where
  edge_index : ℕ
  polygon_index : ℕ
deriving DecidableEq, Repr

/-- `MeshEdgeRef` from `src/src/nav_mesh.rs`. -/
structure MeshEdgeRef where
  polygon_index : ℕ
  edge_index : ℕ
deriving DecidableEq, Repr

/-- `ValidNavigationMesh` from `src/src/nav_mesh.rs`. -/
structure ValidNavigationMesh where
  region_bounds : Vec3q × Vec3q
  mesh_bounds : Vec3q × Vec3q
  vertices : List Vec3q
  polygons : List (List ℕ)
  connectivity : List (List Connectivity)
  boundary_edges : List MeshEdgeRef
deriving DecidableEq, Repr

/-- `get_edge_indices` on a polygon (the method is declared on the
polygon type; its body matches `ValidNavigationMesh::get_edge_points`
in `src/src/nav_mesh.rs`): the pair of vertex indices
`(polygon[edge], polygon[(edge + 1) % polygon.len()])`.  `none` models
an indexing panic. -/
def get_edge_indices (polygon : List ℕ) (edge : ℕ) : Option (ℕ × ℕ) := do
  let left ← polygon.get? edge
  let right ← polygon.get? ((edge + 1) % polygon.length)
  pure (left, right)

/-- The nav data of an island in the `src/src` generation: a transform
together with a validated mesh (fields read by `path.rs`). -/
structure IslandNavData where
  transform : Transform
  nav_mesh : ValidNavigationMesh
deriving DecidableEq, Repr

/-- An island of the `src/src` generation: `nav_data` may be absent. -/
structure Island where
  nav_data : Option IslandNavData
deriving DecidableEq, Repr

/-- Modelled from the spec: `NavigationData` (declared in the absent
`nav_data.rs`) holds the islands keyed by id; `path.rs` reads
`nav_data.islands.get(&id)`.  The map is modelled as an association
list. -/
structure NavigationData where
  islands : List (ℕ × Island)
deriving DecidableEq, Repr

/-- Lookup of an island by id (`islands.get(&island_id)`). -/
def NavigationData.get_island (nav_data : NavigationData) (island_id : ℕ) :
    Option Island :=
  (nav_data.islands.find? (fun entry => entry.1 = island_id)).map (·.2)

/-- `Path` from `src/src/path.rs`. -/
structure Path where
  corridor : List NodeRef
  portal_edge_index : List ℕ
deriving DecidableEq, Repr

/-- `Path::get_portal_endpoints` from `src/src/path.rs`: resolves the
portal at `portal_index` to its two world-space endpoints.  `none`
models a panic (`expect` or indexing). -/
def Path.get_portal_endpoints (path : Path) (portal_index : ℕ)
    (nav_data : NavigationData) : Option (Vec3q × Vec3q) := do
  let node_ref ← path.corridor.get? portal_index
  let edge ← path.portal_edge_index.get? portal_index
  let island ← nav_data.get_island node_ref.island_id
  let island_data ← island.nav_data
  let polygon ← island_data.nav_mesh.polygons.get? node_ref.polygon_index
  let (left_vertex, right_vertex) ← get_edge_indices polygon edge
  let left_point ← island_data.nav_mesh.vertices.get? left_vertex
  let right_point ← island_data.nav_mesh.vertices.get? right_vertex
  pure (island_data.transform.apply left_point,
        island_data.transform.apply right_point)

/-- The `for portal_index in (start_index + 1)..=end_index` loop of
`find_next_point_in_straight_path`, as structural recursion over the
remaining portal indices.  The funnel state is
`(left_index, right_index, current_left, current_right)`; the apex
never changes within one call.  The second `if` block of the loop body
observes the updates made by the first, exactly as in the source. -/
def funnel_loop (path : Path) (nav_data : NavigationData)
    (end_index : ℕ) (end_point : Vec3q) (apex : Vec3q) :
    List ℕ → ℕ → ℕ → Vec3q → Vec3q → Option (ℕ × Vec3q)
  | [], _, _, _, _ => some (end_index, end_point)
  | portal_index :: rest, left_index, right_index, current_left,
      current_right => do
    let (portal_left, portal_right) ←
      if portal_index = end_index then some (end_point, end_point)
      else path.get_portal_endpoints portal_index nav_data
    let right_outcome :
        (ℕ × Vec3q) ⊕ (ℕ × Vec3q) :=
      if triangle_area_2 apex current_right portal_right ≤ 0 then
        if triangle_area_2 apex current_left portal_right ≥ 0 then
          Sum.inl (portal_index, portal_right)
        else
          Sum.inr (left_index, current_left)
      else
        Sum.inl (right_index, current_right)
    match right_outcome with
    | Sum.inr result => some result
    | Sum.inl (right_index', current_right') =>
      if triangle_area_2 apex current_left portal_left ≥ 0 then
        if triangle_area_2 apex current_right' portal_left ≤ 0 then
          funnel_loop path nav_data end_index end_point apex rest
            portal_index right_index' portal_left current_right'
        else
          some (right_index', current_right')
      else
        funnel_loop path nav_data end_index end_point apex rest
          left_index right_index' current_left current_right'

/-- `Path::find_next_point_in_straight_path` from `src/src/path.rs`
(Simple Stupid Funnel, one emitted point per call).  `none` models a
panic inside `get_portal_endpoints`. -/
def Path.find_next_point_in_straight_path (path : Path)
    (nav_data : NavigationData) (start_index : ℕ) (start_point : Vec3q)
    (end_index : ℕ) (end_point : Vec3q) : Option (ℕ × Vec3q) := do
  let apex := start_point
  let (current_left, current_right) ←
    if start_index = end_index then some (end_point, end_point)
    else path.get_portal_endpoints start_index nav_data
  funnel_loop path nav_data end_index end_point apex
    (List.range' (start_index + 1) (end_index - start_index))
    start_index start_index current_left current_right

/-- `collect_straight_path` from the test module of `src/src/path.rs`:
repeatedly advances `find_next_point_in_straight_path` from `start`
until the current index reaches `end`'s index or the iteration limit
is exhausted, collecting every produced waypoint. -/
def collect_straight_path (path : Path) (nav_data : NavigationData)
    (start finish : ℕ × Vec3q) (iteration_limit : ℕ) :
    Option (List (ℕ × Vec3q)) :=
  go start iteration_limit
where
  /-- The `while current.0 != end.0 && iterations < iteration_limit`
  loop, recursing on the remaining iteration budget. -/
  go (current : ℕ × Vec3q) : ℕ → Option (List (ℕ × Vec3q))
    | 0 => some []
    | fuel + 1 =>
      if current.1 = finish.1 then some []
      else do
        let next ← path.find_next_point_in_straight_path nav_data
          current.1 current.2 finish.1 finish.2
        let rest ← go next fuel
        pure (next :: rest)

end CoreV1

namespace CoreV1

/-- The vertex list of the 15-polygon zig-zag corridor from the
`finds_next_point_in_zig_zag` test of `src/src/path.rs`. -/
def zigzag_vertices : List Vec3q :=
  [⟨0, 0, 0⟩, ⟨1, 0, 0⟩, ⟨1, 0, 1⟩, ⟨0, 0, 1⟩,
   ⟨1, 0, 2⟩, ⟨0, 0, 2⟩, ⟨1, 0, 3⟩, ⟨0, 0, 3⟩,
   ⟨1, 0, 4⟩, ⟨0, 0, 4⟩, ⟨1, 0, 5⟩, ⟨2, 0, 4⟩,
   ⟨2, 0, 5⟩, ⟨3, 0, 4⟩, ⟨3, 0, 5⟩, ⟨4, 0, 4⟩,
   ⟨4, 0, 5⟩, ⟨5, 0, 5⟩, ⟨5, 0, 6⟩, ⟨4, 0, 6⟩,
   ⟨5, 0, 7⟩, ⟨4, 0, 7⟩, ⟨4, 0, 8⟩, ⟨-3, 0, 8⟩,
   ⟨-3, 0, 7⟩, ⟨-4, 0, 8⟩, ⟨-3, 0, 15⟩, ⟨-4, 0, 15⟩]

/-- The polygon list of the zig-zag corridor. -/
def zigzag_polygons : List (List ℕ) :=
  [[0, 1, 2, 3], [3, 2, 4, 5], [5, 4, 6, 7], [7, 6, 8, 9],
   [9, 8, 10], [10, 8, 11, 12], [12, 11, 13, 14], [14, 13, 15, 16],
   [16, 15, 17], [16, 17, 18, 19], [19, 18, 20, 21], [21, 20, 22],
   [21, 22, 23, 24], [24, 23, 25], [25, 23, 26, 27]]

/-- The validated zig-zag mesh (vertices and polygons pass through
`validate` unchanged; the funnel reads only these two fields and the
transform). -/
def zigzag_mesh : ValidNavigationMesh :=
  { region_bounds := (⟨-4, 0, 0⟩, ⟨5, 0, 15⟩)
    mesh_bounds := (⟨-4, 0, 0⟩, ⟨5, 0, 15⟩)
    vertices := zigzag_vertices
    polygons := zigzag_polygons
    connectivity := []
    boundary_edges := [] }

/-- The navigation data of the zig-zag scenario: one island (id 1) with
the identity transform. -/
def zigzag_nav_data : NavigationData :=
  { islands := [(1, ⟨some ⟨Transform.identity, zigzag_mesh⟩⟩)] }

/-- The zig-zag path: corridor through polygons 0..14 with
`portal_edge_index = [2,2,2,2,1,2,2,2,2,2,2,2,2,1]`. -/
def zigzag_path : Path :=
  { corridor := [⟨1, 0⟩, ⟨1, 1⟩, ⟨1, 2⟩, ⟨1, 3⟩, ⟨1, 4⟩, ⟨1, 5⟩, ⟨1, 6⟩,
                 ⟨1, 7⟩, ⟨1, 8⟩, ⟨1, 9⟩, ⟨1, 10⟩, ⟨1, 11⟩, ⟨1, 12⟩,
                 ⟨1, 13⟩, ⟨1, 14⟩]
    portal_edge_index := [2, 2, 2, 2, 1, 2, 2, 2, 2, 2, 2, 2, 2, 1] }

/-- `TargetReachedCondition` from `src/src/agent.rs`. -/
inductive TargetReachedCondition where
  | Distance (d : Qx)
  | VisibleAtDistance (d : Qx)
  | StraightPathDistance (d : Qx)
deriving DecidableEq, Repr

/-- `Agent` from `src/src/agent.rs`. -/
structure Agent where
  position : Vec3q
  velocity : Vec3q
  radius : Qx
  max_velocity : Qx
  current_target : Option Vec3q
  target_reached_condition : TargetReachedCondition
  current_path : Option Path
  current_desired_move : Vec3q

/-- `Agent::create` from `src/src/agent.rs`. -/
def Agent.create (position velocity : Vec3q) (radius max_velocity : Qx) :
    Agent :=
  { position, velocity, radius, max_velocity
    current_target := none
    target_reached_condition := TargetReachedCondition.Distance radius
    current_path := none
    current_desired_move := Vec3q.zero }

/-- `Agent::get_desired_velocity` from `src/src/agent.rs`. -/
def Agent.get_desired_velocity (agent : Agent) : Vec3q :=
  agent.current_desired_move

/-- The `while` loop of the `StraightPathDistance` branch of
`Agent::has_reached_target`.  `Vec3::distance` is irrational in
general, so it is passed in as `dist_fn`; `fuel` bounds the number of
iterations of the source's `while` loop.  No claim below depends on
this branch. -/
def straight_line_accumulate (dist_fn : Vec3q → Vec3q → Qx) (path : Path)
    (nav_data : NavigationData) (target_waypoint : ℕ × Vec3q)
    (distance : Qx) : ℕ → (ℕ × Vec3q) → Qx → Option Qx
  | 0, _, acc => some acc
  | fuel + 1, current_waypoint, acc =>
    if current_waypoint.1 = target_waypoint.1 ∨ ¬acc < distance then some acc
    else do
      let next ← path.find_next_point_in_straight_path nav_data
        current_waypoint.1 current_waypoint.2 target_waypoint.1
        target_waypoint.2
      straight_line_accumulate dist_fn path nav_data target_waypoint distance
        fuel next (acc + dist_fn current_waypoint.2 next.2)

/-- `Agent::has_reached_target` from `src/src/agent.rs`.  The
`StraightPathDistance` branch walks the funnel with `dist_fn` standing
for `Vec3::distance` and `fuel` bounding the `while` loop; the other
two branches are exact. -/
def Agent.has_reached_target (agent : Agent) (path : Path)
    (nav_data : NavigationData) (next_waypoint target_waypoint : ℕ × Vec3q)
    (dist_fn : Vec3q → Vec3q → Qx) (fuel : ℕ) : Option Bool :=
  match agent.target_reached_condition with
  | TargetReachedCondition.Distance distance =>
    some (decide (agent.position.distance_squared target_waypoint.2 <
      distance * distance))
  | TargetReachedCondition.VisibleAtDistance distance =>
    some (decide (next_waypoint.1 = target_waypoint.1 ∧
      agent.position.distance_squared next_waypoint.2 <
        distance * distance))
  | TargetReachedCondition.StraightPathDistance distance =>
    if agent.position.distance_squared target_waypoint.2 >
        distance * distance then
      some false
    else if next_waypoint.1 = target_waypoint.1 then
      some true
    else do
      let total ← straight_line_accumulate dist_fn path nav_data
        target_waypoint distance fuel next_waypoint
        (dist_fn agent.position next_waypoint.2)
      some (decide (total < distance))

end CoreV1

namespace CoreV1

/-- Componentwise minimum (`Vec3::min`). -/
def Vec3q.vmin (a b : Vec3q) : Vec3q :=
  ⟨Qx.fmin a.x b.x, Qx.fmin a.y b.y, Qx.fmin a.z b.z⟩

/-- Componentwise maximum (`Vec3::max`). -/
def Vec3q.vmax (a b : Vec3q) : Vec3q :=
  ⟨Qx.fmax a.x b.x, Qx.fmax a.y b.y, Qx.fmax a.z b.z⟩

/-- `NavigationMesh` (unvalidated) from `src/src/nav_mesh.rs`. -/
structure NavigationMesh where
  region_bounds : Option (Vec3q × Vec3q)
  mesh_bounds : Option (Vec3q × Vec3q)
  vertices : List Vec3q
  polygons : List (List ℕ)
deriving DecidableEq, Repr

/-- `ValidationError` from `src/src/nav_mesh.rs`. -/
inductive ValidationError where
  | ConcavePolygon (polygon : ℕ)
  | NotEnoughVerticesInPolygon (polygon : ℕ)
  | InvalidVertexIndexInPolygon (polygon : ℕ)
  | DegenerateEdgeInPolygon (polygon : ℕ)
  | DoublyConnectedEdge (vertex_1 vertex_2 : ℕ)
deriving DecidableEq, Repr

/-- `ConnectivityState`, the per-edge state machine local to `validate`. -/
inductive ConnectivityState where
  | Disconnected
  | Boundary (polygon edge : ℕ)
  | Connected (polygon_1 edge_1 polygon_2 edge_2 : ℕ)
deriving DecidableEq, Repr

/-- The `connectivity_set` HashMap of `validate`, modelled as an
association list keyed by the normalized (unordered) edge. -/
abbrev ConnectivitySet := List ((ℕ × ℕ) × ConnectivityState)

/-- HashMap lookup on the modelled `connectivity_set`. -/
def lookup_edge : ConnectivitySet → (ℕ × ℕ) → Option ConnectivityState
  | [], _ => none
  | entry :: rest, edge =>
    if entry.1 = edge then some entry.2 else lookup_edge rest edge

/-- HashMap insert-or-replace on the modelled `connectivity_set`. -/
def store_edge : ConnectivitySet → (ℕ × ℕ) → ConnectivityState →
    ConnectivitySet
  | [], edge, state => [(edge, state)]
  | entry :: rest, edge, state =>
    if entry.1 = edge then (edge, state) :: rest
    else entry :: store_edge rest edge state

/-- The `match state` block of `validate`: `entry(edge).or_insert(Disconnected)`
followed by the state-machine transition
Disconnected → Boundary → Connected → error. -/
def connectivity_update (set : ConnectivitySet) (edge : ℕ × ℕ)
    (polygon_index i : ℕ) : Except ValidationError ConnectivitySet :=
  match (lookup_edge set edge).getD ConnectivityState.Disconnected with
  | ConnectivityState.Disconnected =>
    Except.ok (store_edge set edge
      (ConnectivityState.Boundary polygon_index i))
  | ConnectivityState.Boundary polygon_1 edge_1 =>
    Except.ok (store_edge set edge
      (ConnectivityState.Connected polygon_1 edge_1 polygon_index i))
  | ConnectivityState.Connected _ _ _ _ =>
    Except.error (ValidationError.DoublyConnectedEdge edge.1 edge.2)

/-- The normalized (unordered) edge of `polygon` at position `i`:
`(polygon[i], polygon[(i+1) mod len])` sorted ascending.  This is the
edge key `validate` computes at loop position `i`. -/
def polygon_edge (polygon : List ℕ) (i : ℕ) : ℕ × ℕ :=
  let center_vertex := polygon.getD i 0
  let right_vertex :=
    polygon.getD (if i = polygon.length - 1 then 0 else i + 1) 0
  if center_vertex < right_vertex then (center_vertex, right_vertex)
  else (right_vertex, center_vertex)

/-- The concavity cross product computed at loop position `i` of
`validate`: with `left`, `center`, `right` the neighboring polygon
vertices (indexing exactly as the source), the 2d cross product
`right_edge.x * left_edge.y - right_edge.y * left_edge.x` of the two
edges projected onto XZ.  Indexing uses `getD` because every vertex
index was bounds-checked by the loop over `polygon` that precedes the
edge loop in the source, so no indexing panic is reachable. -/
def concavity_cross (vertices : List Vec3q) (polygon : List ℕ) (i : ℕ) :
    Qx :=
  let left_vertex :=
    polygon.getD (if i = 0 then polygon.length - 1 else i - 1) 0
  let center_vertex := polygon.getD i 0
  let right_vertex :=
    polygon.getD (if i = polygon.length - 1 then 0 else i + 1) 0
  let left_point := vertices.getD left_vertex Vec3q.zero
  let center_point := vertices.getD center_vertex Vec3q.zero
  let right_point := vertices.getD right_vertex Vec3q.zero
  (right_point.x - center_point.x) * (left_point.z - center_point.z) -
    (right_point.z - center_point.z) * (left_point.x - center_point.x)

/-- The body of the `for i in 0..polygon.len()` loop of `validate`:
degenerate-edge check, connectivity update, concavity check, in source
order (the source's early `return Err` becomes propagation of
`Except.error`).  The normalized edge is `polygon_edge polygon i`,
literally the source's `(center_vertex, right_vertex)` sorted. -/
def validate_edge_step (vertices : List Vec3q) (polygon : List ℕ)
    (polygon_index : ℕ) (set : ConnectivitySet) (i : ℕ) :
    Except ValidationError ConnectivitySet :=
  if (polygon_edge polygon i).1 = (polygon_edge polygon i).2 then
    Except.error (ValidationError.DegenerateEdgeInPolygon polygon_index)
  else
    match connectivity_update set (polygon_edge polygon i) polygon_index i with
    | Except.error e => Except.error e
    | Except.ok set =>
      if concavity_cross vertices polygon i < 0 then
        Except.error (ValidationError.ConcavePolygon polygon_index)
      else Except.ok set

/-- The full `for i in 0..polygon.len()` loop, run over the remaining
index list. -/
def validate_polygon_edges (vertices : List Vec3q) (polygon : List ℕ)
    (polygon_index : ℕ) : List ℕ → ConnectivitySet →
    Except ValidationError ConnectivitySet
  | [], set => Except.ok set
  | i :: rest, set =>
    match validate_edge_step vertices polygon polygon_index set i with
    | Except.error e => Except.error e
    | Except.ok set =>
      validate_polygon_edges vertices polygon polygon_index rest set

/-- The outer `for (polygon_index, polygon) in polygons.iter().enumerate()`
loop of `validate`: vertex-count check, vertex-index check, then the
per-edge loop. -/
def validate_polygons (vertices : List Vec3q) : ℕ → List (List ℕ) →
    ConnectivitySet → Except ValidationError ConnectivitySet
  | _, [], set => Except.ok set
  | polygon_index, polygon :: rest, set =>
    if polygon.length < 3 then
      Except.error (ValidationError.NotEnoughVerticesInPolygon polygon_index)
    else if polygon.any (fun vertex_index => vertices.length ≤ vertex_index)
    then
      Except.error (ValidationError.InvalidVertexIndexInPolygon polygon_index)
    else
      match validate_polygon_edges vertices polygon polygon_index
          (List.range polygon.length) set with
      | Except.error e => Except.error e
      | Except.ok set => validate_polygons vertices (polygon_index + 1) rest set

/-- `connectivity[p].push(entry)` of the final pass of `validate`;
`none` models the indexing panic on an out-of-range polygon index. -/
def push_connectivity (connectivity : List (List Connectivity)) (p : ℕ)
    (entry : Connectivity) : Option (List (List Connectivity)) :=
  match connectivity.get? p with
  | none => none
  | some list => some (connectivity.set p (list ++ [entry]))

/-- The final pass of `validate` over `connectivity_set.values()`:
Boundary states become `boundary_edges` entries, Connected states
become a `Connectivity` entry in each of the two polygons.  `none`
models the `panic!("Value is never stored")` on a Disconnected state or
an indexing panic. -/
def build_connectivity : ConnectivitySet → List (List Connectivity) →
    List MeshEdgeRef → Option (List (List Connectivity) × List MeshEdgeRef)
  | [], connectivity, boundary_edges => some (connectivity, boundary_edges)
  | (_, state) :: rest, connectivity, boundary_edges =>
    match state with
    | ConnectivityState.Disconnected => none
    | ConnectivityState.Boundary polygon edge =>
      build_connectivity rest connectivity
        (boundary_edges ++ [⟨polygon, edge⟩])
    | ConnectivityState.Connected polygon_1 edge_1 polygon_2 edge_2 => do
      let connectivity ← push_connectivity connectivity polygon_1
        ⟨edge_1, polygon_2⟩
      let connectivity ← push_connectivity connectivity polygon_2
        ⟨edge_2, polygon_1⟩
      build_connectivity rest connectivity boundary_edges

/-- The `mesh_bounds` defaulting at the top of `validate`.  For an
empty vertex list the source first assigns `Some((ZERO, ZERO))` but
then still evaluates `vertices.first().unwrap()`, which panics; `none`
models that panic. -/
def compute_mesh_bounds (mesh_bounds : Option (Vec3q × Vec3q))
    (vertices : List Vec3q) : Option (Vec3q × Vec3q) :=
  match mesh_bounds with
  | some bounds => some bounds
  | none =>
    match vertices with
    | [] => none
    | first_vertex :: rest =>
      some (rest.foldl
        (fun acc vertex =>
          (Vec3q.vmin acc.1 vertex, Vec3q.vmax acc.2 vertex))
        (first_vertex, first_vertex))

/-- `NavigationMesh::validate` from `src/src/nav_mesh.rs`.  The outer
`Option` models panics; the inner `Except` is the source's `Result`. -/
def NavigationMesh.validate (mesh : NavigationMesh) :
    Option (Except ValidationError ValidNavigationMesh) := do
  let mesh_bounds ← compute_mesh_bounds mesh.mesh_bounds mesh.vertices
  let region_bounds := mesh.region_bounds.getD mesh_bounds
  match validate_polygons mesh.vertices 0 mesh.polygons [] with
  | Except.error e => some (Except.error e)
  | Except.ok set =>
    match build_connectivity set
        (List.replicate mesh.polygons.length []) [] with
    | none => none
    | some (connectivity, boundary_edges) =>
      some (Except.ok
        { region_bounds, mesh_bounds
          vertices := mesh.vertices
          polygons := mesh.polygons
          connectivity, boundary_edges })

/-- All `((polygon_index, edge_position), normalized_edge)` instances of
one polygon, in processing order. -/
def polygon_instances (polygon : List ℕ) (polygon_index : ℕ) :
    List ((ℕ × ℕ) × (ℕ × ℕ)) :=
  (List.range polygon.length).map
    (fun i => ((polygon_index, i), polygon_edge polygon i))

/-- All edge instances of a polygon list, numbering polygons from `p`. -/
def mesh_instances : ℕ → List (List ℕ) → List ((ℕ × ℕ) × (ℕ × ℕ))
  | _, [] => []
  | p, polygon :: rest => polygon_instances polygon p ++ mesh_instances (p + 1) rest

/-- The occurrence list of an undirected edge: the `(polygon, position)`
pairs at which it appears, in processing order. -/
def edge_occurrences (instances : List ((ℕ × ℕ) × (ℕ × ℕ)))
    (edge : ℕ × ℕ) : List (ℕ × ℕ) :=
  (instances.filter (fun inst => inst.2 = edge)).map (·.1)

/-- `polygon_uses_edge polygons p e`: polygon number `p` of `polygons`
traverses the undirected edge `e` at some position. -/
def polygon_uses_edge (polygons : List (List ℕ)) (p : ℕ) (e : ℕ × ℕ) :
    Prop :=
  ∃ i, ((p, i), e) ∈ mesh_instances 0 polygons

/-- The connectivity set agrees with the occurrence lists of a prefix of
the processed edge instances: absent ↔ no occurrence, Boundary ↔ one,
Connected ↔ two (in order); Disconnected is never stored. -/
def conn_set_matches (set : ConnectivitySet)
    (instances : List ((ℕ × ℕ) × (ℕ × ℕ))) : Prop :=
  ∀ edge : ℕ × ℕ,
    match lookup_edge set edge with
    | none => edge_occurrences instances edge = []
    | some (ConnectivityState.Boundary p i) =>
      edge_occurrences instances edge = [(p, i)]
    | some (ConnectivityState.Connected p1 i1 p2 i2) =>
      edge_occurrences instances edge = [(p1, i1), (p2, i2)]
    | some ConnectivityState.Disconnected => False

end CoreV1

/-- Association-list lookup, modelling HashMap / slotmap `get`. -/
def assoc_lookup {α β : Type} [DecidableEq α] : List (α × β) → α → Option β
  | [], _ => none
  | entry :: rest, key =>
    if entry.1 = key then some entry.2 else assoc_lookup rest key

/-- Option-valued map over a list, modelling a Rust iterator whose
closure may panic: `none` if any element's image is `none`. -/
def option_map_list {α β : Type} (f : α → Option β) :
    List α → Option (List β)
  | [] => some []
  | x :: xs => do
    let y ← f x
    let ys ← option_map_list f xs
    pure (y :: ys)

namespace LM

/-- `NodeType`, a slotmap key, modelled as a natural number. -/
abbrev NodeType := ℕ

/-- `BoundaryLinkId`, a slotmap key, modelled as a natural number. -/
abbrev BoundaryLinkId := ℕ

/-- Modelled from the spec: the `Connectivity` record of the crate's
`ValidNavigationMesh` (its `nav_mesh.rs` is absent from the sources):
neighbor polygon plus the pair of travel distances
(center→edge-midpoint, edge-midpoint→neighbor-center) read by
`successors`. -/
structure Connectivity where
  polygon_index : ℕ
  travel_distances : Qx × Qx
deriving DecidableEq, Repr

/-- Modelled from the spec: a polygon of the crate's
`ValidNavigationMesh` with the fields read by
`crates/landmass/src/pathfinding.rs`: per-edge connectivity
(`None` on boundary edges), the polygon's type index, and its center. -/
structure ValidPolygon where
  connectivity : List (Option Connectivity)
  type_index : ℕ
  center : Vec3q
deriving DecidableEq, Repr

/-- Modelled from the spec: the crate's `ValidNavigationMesh`, reduced
to the field read by `pathfinding.rs`. -/
structure ValidNavigationMesh where
  polygons : List ValidPolygon
deriving DecidableEq, Repr

/-- The island navigation-data fields read by
`crates/landmass/src/pathfinding.rs`: the transform, the mesh, and the
island's type-index→node-type map (an association list standing for the
HashMap). -/
structure PathIslandData where
  transform : Transform
  nav_mesh : ValidNavigationMesh
  type_index_to_node_type : List (ℕ × NodeType)
deriving DecidableEq, Repr

/-- An island as read by `pathfinding.rs`: `nav_data` may be absent. -/
structure IslandP where
  nav_data : Option PathIslandData
deriving DecidableEq, Repr

/-- `BoundaryLink` (declared in the absent `nav_data.rs`): destination
node and cost, the fields read by `pathfinding.rs`. -/
structure BoundaryLink where
  destination_node : NodeRef
  cost : Qx
deriving DecidableEq, Repr

/-- Modelled from the spec and the uses in `pathfinding.rs` and
`query.rs`: `NavigationData` (its `nav_data.rs` is absent from the
sources).  `node_type_costs` is the archipelago's node-type cost
registry; `are_nodes_connected` is the reachability cache; `dirty` and
`sample_point` serve `query.rs`, the latter kept as an oracle standing
for the sampling algorithm of the absent module (`none` exactly when no
polygon lies within the given distance of the point). -/
structure NavigationData where
  islands : List (ℕ × IslandP)
  node_to_boundary_link_ids : List (NodeRef × List BoundaryLinkId)
  boundary_links : List (BoundaryLinkId × BoundaryLink)
  node_type_costs : List (NodeType × Qx)
  are_nodes_connected : NodeRef → NodeRef → Bool
  dirty : Bool
  sample_point : Vec3q → Qx → Option (Vec3q × NodeRef)

/-- `NavigationData::get_island`. -/
def NavigationData.get_island (nav_data : NavigationData)
    (island_id : ℕ) : Option IslandP :=
  assoc_lookup nav_data.islands island_id

/-- `NavigationData::get_node_type_cost`. -/
def NavigationData.get_node_type_cost (nav_data : NavigationData)
    (node_type : NodeType) : Option Qx :=
  assoc_lookup nav_data.node_type_costs node_type

/-- `PathStep` from `crates/landmass/src/pathfinding.rs`. -/
inductive PathStep where
  | NodeConnection (edge_index : ℕ)
  | BoundaryLink (link_id : BoundaryLinkId)
deriving DecidableEq, Repr

/-- `ArchipelagoPathProblem` from `crates/landmass/src/pathfinding.rs`,
extended with the override cost map: `query.rs` passes
`override_node_type_costs` into `pathfinding::find_path`, whose
override-aware body is absent from the sources and is modelled from the
spec. -/
structure ArchipelagoPathProblem where
  nav_data : NavigationData
  start_node : NodeRef
  end_node : NodeRef
  end_point : Vec3q
  override_node_type_costs : List (NodeType × Qx)

/-- `type_index_to_node_cost` from `successors`, extended with the
override map.  Modelled from the spec: `cost(t)` is `override_costs[t]`
if present, else the archipelago's cost for `t`; a type index absent
from the island's map is the default node type with cost 1.  `none`
models the `expect("NodeType exists")` panic. -/
def type_index_to_node_cost (type_index : ℕ)
    (island_nav_data : PathIslandData) (nav_data : NavigationData)
    (override_node_type_costs : List (NodeType × Qx)) : Option Qx :=
  match assoc_lookup island_nav_data.type_index_to_node_type type_index with
  | none => some 1
  | some node_type =>
    match assoc_lookup override_node_type_costs node_type with
    | some cost => some cost
    | none => nav_data.get_node_type_cost node_type

/-- `ArchipelagoPathProblem::successors` from
`crates/landmass/src/pathfinding.rs` (with the spec-modelled override
handling inside `type_index_to_node_cost`): one successor per non-`None`
connectivity edge, costed by the travel distances weighted with the two
node costs, followed by one successor per boundary link, costed by the
link's own cost.  `none` models a panic (`unwrap` or indexing). -/
def successors (problem : ArchipelagoPathProblem) (state : NodeRef) :
    Option (List (Qx × PathStep × NodeRef)) := do
  let island ← problem.nav_data.get_island state.island_id
  let island_nav_data ← island.nav_data
  let polygon ← island_nav_data.nav_mesh.polygons.get? state.polygon_index
  let boundary_links :=
    (assoc_lookup problem.nav_data.node_to_boundary_link_ids state).getD []
  let current_node_cost ← type_index_to_node_cost polygon.type_index
    island_nav_data problem.nav_data problem.override_node_type_costs
  let connection_successors ← option_map_list
    (fun (pair : ℕ × Connectivity) => do
      let target_polygon ← island_nav_data.nav_mesh.polygons.get?
        pair.2.polygon_index
      let target_node_cost ← type_index_to_node_cost
        target_polygon.type_index island_nav_data problem.nav_data
        problem.override_node_type_costs
      pure (pair.2.travel_distances.1 * current_node_cost +
              pair.2.travel_distances.2 * target_node_cost,
            PathStep.NodeConnection pair.1,
            (⟨state.island_id, pair.2.polygon_index⟩ : NodeRef)))
    (polygon.connectivity.enum.filterMap
      (fun (pair : ℕ × Option Connectivity) =>
        pair.2.map (fun conn => (pair.1, conn))))
  let link_successors ← option_map_list
    (fun link_id => do
      let link ← assoc_lookup problem.nav_data.boundary_links link_id
      pure (link.cost, PathStep.BoundaryLink link_id,
            link.destination_node))
    boundary_links
  pure (connection_successors ++ link_successors)

/-- `IslandSegment` from the crate's `path.rs` (absent from the
sources; shape fixed by the spec and by its construction in
`find_path`). -/
structure IslandSegment where
  island_id : ℕ
  corridor : List ℕ
  portal_edge_index : List ℕ
deriving DecidableEq, Repr

/-- `BoundaryLinkSegment` from the crate's `path.rs`. -/
structure BoundaryLinkSegment where
  starting_node : NodeRef
  boundary_link : BoundaryLinkId
deriving DecidableEq, Repr

/-- `Path` from the crate's `path.rs`: island segments interleaved with
boundary-link segments. -/
structure Path where
  island_segments : List IslandSegment
  boundary_link_segments : List BoundaryLinkSegment
deriving DecidableEq, Repr

/-- `PathStats` from the absent `astar.rs`, shape fixed by its uses. -/
structure PathStats where
  explored_nodes : ℕ
deriving DecidableEq, Repr

/-- The result type of `astar::find_path` (absent `astar.rs`): stats
plus the action sequence if a path was found. -/
structure AStarPathResult where
  stats : PathStats
  path : Option (List PathStep)
deriving DecidableEq, Repr

/-- `PathResult` from `crates/landmass/src/pathfinding.rs`. -/
structure PathResult where
  stats : PathStats
  path : Option Path
deriving DecidableEq, Repr

/-- The body of the `for path_step in astar_path` loop of `find_path`:
a `NodeConnection` appends one polygon and one edge index to the last
island segment; a `BoundaryLink` records a boundary-link segment and
opens a fresh island segment at the link's destination.  `none` models
a panic (`unwrap` or indexing). -/
def apply_path_step (nav_data : NavigationData) (path : Path)
    (step : PathStep) : Option Path := do
  let last_segment ← path.island_segments.getLast?
  let previous_node ← last_segment.corridor.getLast?
  match step with
  | PathStep.NodeConnection edge_index => do
    let island ← nav_data.get_island last_segment.island_id
    let island_data ← island.nav_data
    let polygon ← island_data.nav_mesh.polygons.get? previous_node
    let connectivity_entry ← polygon.connectivity.get? edge_index
    let connectivity ← connectivity_entry
    pure { path with island_segments :=
      path.island_segments.dropLast ++
        [{ last_segment with
            corridor := last_segment.corridor ++ [connectivity.polygon_index]
            portal_edge_index :=
              last_segment.portal_edge_index ++ [edge_index] }] }
  | PathStep.BoundaryLink boundary_link => do
    let link ← assoc_lookup nav_data.boundary_links boundary_link
    pure { island_segments := path.island_segments ++
            [{ island_id := link.destination_node.island_id
               corridor := [link.destination_node.polygon_index]
               portal_edge_index := [] }]
           boundary_link_segments := path.boundary_link_segments ++
            [{ starting_node :=
                ⟨last_segment.island_id, previous_node⟩
               boundary_link := boundary_link }] }

/-- `find_path` from `crates/landmass/src/pathfinding.rs`.  The A*
engine of the absent `astar.rs` is passed in as `astar_find`; it is
only invoked after the fast-fail connectivity check.  `none` models a
panic in the `unwrap`ed lookups. -/
def find_path (astar_find : ArchipelagoPathProblem → AStarPathResult)
    (nav_data : NavigationData) (start_node end_node : NodeRef)
    (override_node_type_costs : List (NodeType × Qx)) :
    Option PathResult :=
  if !(nav_data.are_nodes_connected start_node end_node) then
    some { stats := { explored_nodes := 0 }, path := none }
  else do
    let island ← nav_data.get_island end_node.island_id
    let island_nav_data ← island.nav_data
    let end_polygon ← island_nav_data.nav_mesh.polygons.get?
      end_node.polygon_index
    let problem : ArchipelagoPathProblem :=
      { nav_data, start_node, end_node
        end_point := island_nav_data.transform.apply end_polygon.center
        override_node_type_costs }
    let path_result := astar_find problem
    match path_result.path with
    | none => some { stats := path_result.stats, path := none }
    | some astar_path => do
      let output ← astar_path.foldlM (apply_path_step nav_data)
        ({ island_segments :=
            [{ island_id := start_node.island_id
               corridor := [start_node.polygon_index]
               portal_edge_index := [] }]
           boundary_link_segments := [] } : Path)
      pure { stats := path_result.stats, path := some output }

end LM

namespace LM

/-- `SamplePointError` from `crates/landmass/src/query.rs`. -/
inductive SamplePointError where
  | OutOfRange
  | NavDataDirty
deriving DecidableEq, Repr

/-- `SampledPoint` from `crates/landmass/src/query.rs` (the lifetime
marker has no model content). -/
structure SampledPoint where
  point : Vec3q
  node_ref : NodeRef
deriving DecidableEq, Repr

/-- `Archipelago`, reduced to the field read by `query.rs`. -/
structure Archipelago where
  nav_data : NavigationData

/-- `sample_point` from `crates/landmass/src/query.rs`, instantiated at
the 3d Y-up coordinate system (`to_landmass` and `from_landmass` are
the identity): fail with `NavDataDirty` if the navigation data is
dirty, with `OutOfRange` if the sampler finds no polygon within
`distance_to_node`, and otherwise return the sampled point and node. -/
def sample_point (archipelago : Archipelago) (point : Vec3q)
    (distance_to_node : Qx) : Except SamplePointError SampledPoint :=
  if archipelago.nav_data.dirty then
    Except.error SamplePointError.NavDataDirty
  else
    match archipelago.nav_data.sample_point point distance_to_node with
    | none => Except.error SamplePointError.OutOfRange
    | some (p, node_ref) => Except.ok { point := p, node_ref }

/-- `IslandNavigationData` from `crates/landmass/src/island.rs`,
generic over the transform, mesh, and bounds types just as the source
is generic over `CS` (the concrete `Transform<CS>`,
`Arc<ValidNavigationMesh>` and `BoundingBox` types live in modules
absent from the sources). -/
structure IslandNavigationData (T M B : Type) where
  transform : T
  nav_mesh : M
  transformed_bounds : B

/-- `Island` from `crates/landmass/src/island.rs`. -/
structure Island (T M B : Type) where
  nav_data : Option (IslandNavigationData T M B)
  dirty : Bool

/-- `Island::new` from `crates/landmass/src/island.rs`: empty and
dirty. -/
def Island.new {T M B : Type} : Island T M B :=
  { nav_data := none, dirty := true }

/-- `Island::set_nav_mesh` from `crates/landmass/src/island.rs`.  The
methods `ValidNavigationMesh::get_bounds` and `BoundingBox::transform`
belong to modules absent from the sources and are passed in as
`get_bounds` and `transform_bounds`; the stored `transformed_bounds` is
`nav_mesh.get_bounds().transform(&transform)`. -/
def Island.set_nav_mesh {T M B : Type} (get_bounds : M → B)
    (transform_bounds : B → T → B) (_island : Island T M B)
    (transform : T) (nav_mesh : M) : Island T M B :=
  { nav_data := some
      { transformed_bounds := transform_bounds (get_bounds nav_mesh) transform
        transform, nav_mesh }
    dirty := true }

/-- `Island::clear_nav_mesh` from `crates/landmass/src/island.rs`. -/
def Island.clear_nav_mesh {T M B : Type} (_island : Island T M B) :
    Island T M B :=
  { nav_data := none, dirty := true }

end LM

namespace CoreV1

/-- A mesh whose single polygon traverses the undirected edge (0,1)
twice (the polygon is `[0, 1, 0, 2]` over three collinear vertices);
`validate` accepts it, classifying both doubly-traversed edges as
Connected, so `boundary_edges` is empty although each edge is used by
exactly one polygon. -/
def double_edge_mesh : NavigationMesh :=
  { region_bounds := none
    mesh_bounds := none
    vertices := [⟨0, 0, 0⟩, ⟨1, 0, 0⟩, ⟨-1, 0, 0⟩]
    polygons := [[0, 1, 0, 2]] }

/-- Two counterclockwise triangles sharing the edge (1,2); a witness
mesh accepted by `validate`. -/
def two_triangle_mesh : NavigationMesh :=
  { region_bounds := none
    mesh_bounds := none
    vertices := [⟨0, 0, 0⟩, ⟨1, 0, 0⟩, ⟨1, 0, 1⟩, ⟨2, 0, 1⟩]
    polygons := [[0, 1, 2], [1, 3, 2]] }

end CoreV1

/-- Decidable equality for `Except`, so concrete `validate` runs can be
settled by `decide`. -/
instance {E A : Type} [DecidableEq E] [DecidableEq A] :
    DecidableEq (Except E A) := fun x y =>
  match x, y with
  | Except.error a, Except.error b =>
    if h : a = b then Decidable.isTrue (by rw [h])
    else Decidable.isFalse (fun hx => h (Except.error.inj hx))
  | Except.ok a, Except.ok b =>
    if h : a = b then Decidable.isTrue (by rw [h])
    else Decidable.isFalse (fun hx => h (Except.ok.inj hx))
  | Except.error _, Except.ok _ =>
    Decidable.isFalse (fun hx => Except.noConfusion hx)
  | Except.ok _, Except.error _ =>
    Decidable.isFalse (fun hx => Except.noConfusion hx)

namespace CoreV1

/-- A placeholder validated mesh, used only as the unreachable fallback
of the extractions below. -/
def fallback_valid_mesh : ValidNavigationMesh :=
  ⟨(Vec3q.zero, Vec3q.zero), (Vec3q.zero, Vec3q.zero), [], [], [], []⟩

/-- The validated `two_triangle_mesh` (extracted from `validate`). -/
def two_triangle_valid : ValidNavigationMesh :=
  match NavigationMesh.validate two_triangle_mesh with
  | some (Except.ok valid) => valid
  | _ => fallback_valid_mesh

/-- The validated `double_edge_mesh` (extracted from `validate`). -/
def double_edge_valid : ValidNavigationMesh :=
  match NavigationMesh.validate double_edge_mesh with
  | some (Except.ok valid) => valid
  | _ => fallback_valid_mesh

end CoreV1

namespace LM

/-- A tiny concrete navigation data for the witnesses below: one island
(id 0) holding two polygons joined through edge 0 of polygon 0, plus
one boundary link (id 5) out of polygon 0 toward island 2. -/
def sample_nav_data : NavigationData :=
  { islands := [(0, ⟨some
      { transform := Transform.identity
        nav_mesh := { polygons :=
          [{ connectivity := [some ⟨1, (⟨3, 2⟩, ⟨1, 1⟩)⟩]
             type_index := 0
             center := ⟨0, 0, 0⟩ },
           { connectivity := []
             type_index := 0
             center := ⟨1, 0, 0⟩ }] }
        type_index_to_node_type := [] }⟩)]
    node_to_boundary_link_ids := [(⟨0, 0⟩, [5])]
    boundary_links := [(5, { destination_node := ⟨2, 0⟩, cost := ⟨9, 4⟩ })]
    node_type_costs := []
    are_nodes_connected := fun _ _ => true
    dirty := false
    sample_point := fun _ _ => none }

/-- The witness path problem over `sample_nav_data`. -/
def sample_problem : ArchipelagoPathProblem :=
  { nav_data := sample_nav_data
    start_node := ⟨0, 0⟩
    end_node := ⟨0, 1⟩
    end_point := ⟨0, 0, 0⟩
    override_node_type_costs := [] }

end LM

/-- C1: for the 15-polygon zig-zag corridor with
`portal_edge_index = [2,2,2,2,1,2,2,2,2,2,2,2,2,1]`, repeatedly calling
`find_next_point_in_straight_path` from (index 0, (0.5,0,0.5)) toward
(index 14, (−3.5,0,14)) produces exactly the five waypoints (1,0,4),
(4,0,5), (4,0,7), (−3,0,8), (−3.5,0,14), in that order, without
panicking (the iteration budget 10 exceeds the five steps actually
taken, so the list is exhaustive). -/
theorem C1_zigzag_straight_path :
    CoreV1.collect_straight_path CoreV1.zigzag_path CoreV1.zigzag_nav_data
      (0, ⟨⟨1, 2⟩, 0, ⟨1, 2⟩⟩) (14, ⟨⟨-7, 2⟩, 0, 14⟩) 10 =
    some [(4, ⟨1, 0, 4⟩), (8, ⟨4, 0, 5⟩), (11, ⟨4, 0, 7⟩),
          (13, ⟨-3, 0, 8⟩), (14, ⟨⟨-7, 2⟩, 0, 14⟩)] := by
  decide

/-- C5: whenever `are_nodes_connected` reports the two nodes as not
connected, `find_path` fails immediately with `explored_nodes = 0` and
no path, for every A* engine (so no exploration can have happened). -/
theorem C5_find_path_fast_fail
    (astar_find : LM.ArchipelagoPathProblem → LM.AStarPathResult)
    (nav_data : LM.NavigationData) (start_node end_node : NodeRef)
    (override_node_type_costs : List (LM.NodeType × Qx))
    (h : nav_data.are_nodes_connected start_node end_node = false) :
    LM.find_path astar_find nav_data start_node end_node
      override_node_type_costs =
    some { stats := { explored_nodes := 0 }, path := none } := by
  unfold LM.find_path
  rw [h]
  rfl

/-- Witness for C5 at a concrete navigation data whose connectivity
cache reports `false`. -/
theorem C5_find_path_fast_fail_witness :
    LM.find_path (fun _ => ⟨⟨7⟩, none⟩)
      { islands := [], node_to_boundary_link_ids := [],
        boundary_links := [], node_type_costs := [],
        are_nodes_connected := fun _ _ => false, dirty := false,
        sample_point := fun _ _ => none }
      ⟨0, 0⟩ ⟨1, 0⟩ [] =
    some { stats := { explored_nodes := 0 }, path := none } :=
  C5_find_path_fast_fail (fun _ => ⟨⟨7⟩, none⟩) _ ⟨0, 0⟩ ⟨1, 0⟩ [] rfl

/-- C6: the stand-alone `sample_point` query fails with `NavDataDirty`
exactly when the navigation data is dirty; otherwise it fails with
`OutOfRange` exactly when the sampler finds no polygon within
`distance_to_node` of the point, and otherwise returns the sampled
point and its node. -/
theorem C6_sample_point_errors (archipelago : LM.Archipelago)
    (point : Vec3q) (distance_to_node : Qx) :
    (archipelago.nav_data.dirty = true →
      LM.sample_point archipelago point distance_to_node =
        Except.error LM.SamplePointError.NavDataDirty) ∧
    (archipelago.nav_data.dirty = false →
      ((LM.sample_point archipelago point distance_to_node =
          Except.error LM.SamplePointError.OutOfRange) ↔
        archipelago.nav_data.sample_point point distance_to_node = none) ∧
      (∀ (p : Vec3q) (node_ref : NodeRef),
        archipelago.nav_data.sample_point point distance_to_node =
          some (p, node_ref) →
        LM.sample_point archipelago point distance_to_node =
          Except.ok { point := p, node_ref := node_ref })) := by
  constructor
  · intro h
    simp [LM.sample_point, h]
  · intro h
    constructor
    · cases ho : archipelago.nav_data.sample_point point distance_to_node with
      | none => simp [LM.sample_point, h, ho]
      | some pair => simp [LM.sample_point, h, ho]
    · intro p node_ref ho
      simp [LM.sample_point, h, ho]

/-- Witness for C6 at a concrete dirty archipelago. -/
theorem C6_sample_point_errors_witness :
    LM.sample_point
      ⟨{ islands := [], node_to_boundary_link_ids := [],
         boundary_links := [], node_type_costs := [],
         are_nodes_connected := fun _ _ => false, dirty := true,
         sample_point := fun _ _ => none }⟩
      ⟨0, 0, 0⟩ 1 = Except.error LM.SamplePointError.NavDataDirty :=
  (C6_sample_point_errors _ ⟨0, 0, 0⟩ 1).1 rfl

/-- C7: with condition `VisibleAtDistance d`, `has_reached_target`
returns true iff the next waypoint's index equals the target waypoint's
index and the squared distance from the agent to the next waypoint is
strictly below `d²`; concretely, an agent at the origin with next
waypoint `(1.5, 0, 0)` and `d = 2` reaches iff the indices agree. -/
theorem C7_visible_at_distance :
    (∀ (agent : CoreV1.Agent) (path : CoreV1.Path)
       (nav_data : CoreV1.NavigationData)
       (next_waypoint target_waypoint : ℕ × Vec3q)
       (dist_fn : Vec3q → Vec3q → Qx) (fuel : ℕ) (d : Qx),
       agent.target_reached_condition =
         CoreV1.TargetReachedCondition.VisibleAtDistance d →
       (agent.has_reached_target path nav_data next_waypoint
           target_waypoint dist_fn fuel = some true ↔
         (next_waypoint.1 = target_waypoint.1 ∧
           agent.position.distance_squared next_waypoint.2 < d * d))) ∧
    CoreV1.Agent.has_reached_target
      ⟨⟨0, 0, 0⟩, Vec3q.zero, 1, 1, none,
        CoreV1.TargetReachedCondition.VisibleAtDistance 2, none, Vec3q.zero⟩
      ⟨[], []⟩ ⟨[]⟩ (1, ⟨⟨3, 2⟩, 0, 0⟩) (1, ⟨3, 0, 0⟩)
      (fun _ _ => 0) 0 = some true ∧
    CoreV1.Agent.has_reached_target
      ⟨⟨0, 0, 0⟩, Vec3q.zero, 1, 1, none,
        CoreV1.TargetReachedCondition.VisibleAtDistance 2, none, Vec3q.zero⟩
      ⟨[], []⟩ ⟨[]⟩ (1, ⟨⟨3, 2⟩, 0, 0⟩) (2, ⟨3, 0, 0⟩)
      (fun _ _ => 0) 0 = some false := by
  refine ⟨?_, by decide, by decide⟩
  intro agent path nav_data next_waypoint target_waypoint dist_fn fuel d h
  simp [CoreV1.Agent.has_reached_target, h]

/-- Witness for C7 discharging the condition hypothesis at a concrete
agent. -/
theorem C7_visible_at_distance_witness :
    CoreV1.Agent.has_reached_target
      ⟨⟨0, 0, 0⟩, Vec3q.zero, 1, 1, none,
        CoreV1.TargetReachedCondition.VisibleAtDistance 2, none, Vec3q.zero⟩
      ⟨[], []⟩ ⟨[]⟩ (1, ⟨⟨3, 2⟩, 0, 0⟩) (1, ⟨3, 0, 0⟩)
      (fun _ _ => 0) 0 = some true ↔
    ((1 : ℕ) = 1 ∧
      Vec3q.distance_squared ⟨0, 0, 0⟩ ⟨⟨3, 2⟩, 0, 0⟩ < (2 : Qx) * 2) :=
  C7_visible_at_distance.1 _ ⟨[], []⟩ ⟨[]⟩ (1, ⟨⟨3, 2⟩, 0, 0⟩)
    (1, ⟨3, 0, 0⟩) (fun _ _ => 0) 0 2 rfl

/-- C9: a freshly created island is dirty; `set_nav_mesh` and
`clear_nav_mesh` leave the island dirty; and `set_nav_mesh` stores
`transformed_bounds` equal to the navigation mesh's bounds transformed
by the supplied transform. -/
theorem C9_island_dirty_and_bounds (T M B : Type) (get_bounds : M → B)
    (transform_bounds : B → T → B) (island : LM.Island T M B)
    (transform : T) (nav_mesh : M) :
    (LM.Island.new : LM.Island T M B).dirty = true ∧
    (island.set_nav_mesh get_bounds transform_bounds transform
      nav_mesh).dirty = true ∧
    (island.clear_nav_mesh).dirty = true ∧
    (island.set_nav_mesh get_bounds transform_bounds transform
        nav_mesh).nav_data =
      some ⟨transform, nav_mesh,
            transform_bounds (get_bounds nav_mesh) transform⟩ ∧
    (island.clear_nav_mesh).nav_data = none := by
  exact ⟨rfl, rfl, rfl, rfl, rfl⟩

/-- C10: `Agent::create` stores the given position, velocity, radius
and max velocity unchanged, with no target, no path, a zero desired
velocity, and reached-condition `Distance(radius)`. -/
theorem C10_agent_create (position velocity : Vec3q)
    (radius max_velocity : Qx) :
    (CoreV1.Agent.create position velocity radius
        max_velocity).current_target = none ∧
    (CoreV1.Agent.create position velocity radius
        max_velocity).current_path = none ∧
    (CoreV1.Agent.create position velocity radius
        max_velocity).get_desired_velocity = Vec3q.zero ∧
    (CoreV1.Agent.create position velocity radius
        max_velocity).target_reached_condition =
      CoreV1.TargetReachedCondition.Distance radius ∧
    (CoreV1.Agent.create position velocity radius
        max_velocity).position = position ∧
    (CoreV1.Agent.create position velocity radius
        max_velocity).velocity = velocity ∧
    (CoreV1.Agent.create position velocity radius
        max_velocity).radius = radius ∧
    (CoreV1.Agent.create position velocity radius
        max_velocity).max_velocity = max_velocity := by
  exact ⟨rfl, rfl, rfl, rfl, rfl, rfl, rfl, rfl⟩

/-- Membership transport through `option_map_list`: if the whole map
succeeds, the image of every element is in the output. -/
theorem mem_option_map_list {α β : Type} {f : α → Option β} :
    ∀ {xs : List α} {ys : List β} {x : α} {y : β},
      option_map_list f xs = some ys → x ∈ xs → f x = some y → y ∈ ys := by
  intro xs
  induction xs with
  | nil => intro ys x y _ hx; cases hx
  | cons a as ih =>
    intro ys x y hmap hx hfx
    rw [option_map_list] at hmap
    simp only [Option.bind_eq_bind, Option.bind_eq_some, Option.pure_def,
      Option.some.injEq] at hmap
    obtain ⟨y0, hfa, ys0, hrest, hys⟩ := hmap
    subst hys
    rcases List.mem_cons.mp hx with hxa | hxas
    · subst hxa
      rw [hfa] at hfx
      cases hfx
      exact List.mem_cons_self _ _
    · exact List.mem_cons_of_mem _ (ih hrest hxas hfx)

/-- C2: every successor set contains, for each non-`None` connectivity
edge, a successor costed `travel_distances.0 * cost(type(s)) +
travel_distances.1 * cost(type(neighbor))`, and, for each boundary link
out of the node, a successor costed exactly the link's own cost; here
`cost(t)` is the override cost when present, else the archipelago's
registered cost, and 1 for a type index not mapped to a node type (the
default type), as the last conjunct makes explicit. -/
theorem C2_successors_costs (problem : LM.ArchipelagoPathProblem)
    (state : NodeRef) (successor_list : List (Qx × LM.PathStep × NodeRef))
    (h : LM.successors problem state = some successor_list) :
    (∀ (island : LM.IslandP) (island_nav_data : LM.PathIslandData)
       (polygon target_polygon : LM.ValidPolygon)
       (edge_index : ℕ) (conn : LM.Connectivity)
       (current_cost target_cost : Qx),
       problem.nav_data.get_island state.island_id = some island →
       island.nav_data = some island_nav_data →
       island_nav_data.nav_mesh.polygons.get? state.polygon_index =
         some polygon →
       polygon.connectivity.get? edge_index = some (some conn) →
       island_nav_data.nav_mesh.polygons.get? conn.polygon_index =
         some target_polygon →
       LM.type_index_to_node_cost polygon.type_index island_nav_data
         problem.nav_data problem.override_node_type_costs =
         some current_cost →
       LM.type_index_to_node_cost target_polygon.type_index island_nav_data
         problem.nav_data problem.override_node_type_costs =
         some target_cost →
       (conn.travel_distances.1 * current_cost +
          conn.travel_distances.2 * target_cost,
        LM.PathStep.NodeConnection edge_index,
        (⟨state.island_id, conn.polygon_index⟩ : NodeRef)) ∈
         successor_list) ∧
    (∀ (link_id : LM.BoundaryLinkId) (link : LM.BoundaryLink),
       link_id ∈ (assoc_lookup problem.nav_data.node_to_boundary_link_ids
         state).getD [] →
       assoc_lookup problem.nav_data.boundary_links link_id = some link →
       (link.cost, LM.PathStep.BoundaryLink link_id,
        link.destination_node) ∈ successor_list) ∧
    (∀ (island_nav_data : LM.PathIslandData) (type_index : ℕ) (c : Qx),
       LM.type_index_to_node_cost type_index island_nav_data
         problem.nav_data problem.override_node_type_costs = some c →
       (∀ node_type,
         assoc_lookup island_nav_data.type_index_to_node_type type_index =
           some node_type →
         (∀ override_cost,
           assoc_lookup problem.override_node_type_costs node_type =
             some override_cost → c = override_cost) ∧
         (assoc_lookup problem.override_node_type_costs node_type = none →
           problem.nav_data.get_node_type_cost node_type = some c)) ∧
       (assoc_lookup island_nav_data.type_index_to_node_type type_index =
          none → c = 1)) := by
  rw [LM.successors] at h
  simp only [Option.bind_eq_bind, Option.bind_eq_some, Option.pure_def,
    Option.some.injEq] at h
  obtain ⟨island', hisland', island_nav', hnav', polygon', hpoly', cur',
    hcur', connection_successors, hcs, link_successors, hls, heq⟩ := h
  subst heq
  refine ⟨?_, ?_, ?_⟩
  · intro island island_nav_data polygon target_polygon edge_index conn
      current_cost target_cost hisland hnav hpoly hconn htarget hcur htgt
    rw [hisland'] at hisland
    cases hisland
    rw [hnav'] at hnav
    cases hnav
    rw [hpoly'] at hpoly
    cases hpoly
    rw [hcur'] at hcur
    cases hcur
    refine List.mem_append_left _ ?_
    refine @mem_option_map_list _ _ _ _ _ (edge_index, conn) _ hcs ?_ ?_
    · refine List.mem_filterMap.mpr ⟨(edge_index, some conn), ?_, rfl⟩
      exact List.mk_mem_enum_iff_getElem?.mpr
        (by rw [← List.get?_eq_getElem?]; exact hconn)
    · simp only [Option.bind_eq_bind, Option.bind_eq_some, Option.pure_def,
        Option.some.injEq]
      exact ⟨target_polygon, htarget, target_cost, htgt, rfl⟩
  · intro link_id link hmem hlink
    refine List.mem_append_right _ ?_
    refine mem_option_map_list hls hmem ?_
    simp only [Option.bind_eq_bind, Option.bind_eq_some, Option.pure_def,
      Option.some.injEq]
    exact ⟨link, hlink, rfl⟩
  · intro island_nav_data type_index c hc
    rw [LM.type_index_to_node_cost] at hc
    split at hc
    · next heq =>
      cases hc
      refine ⟨fun node_type hnt => ?_, fun _ => rfl⟩
      rw [heq] at hnt
      cases hnt
    · next node_type heq =>
      refine ⟨fun node_type' hnt => ?_, fun hnone => ?_⟩
      swap
      · rw [heq] at hnone
        cases hnone
      rw [heq] at hnt
      cases hnt
      split at hc
      · next override_cost hov =>
        cases hc
        refine ⟨fun oc' hoc' => ?_, fun hnone => ?_⟩
        · rw [hov] at hoc'
          exact Option.some.inj hoc'
        · rw [hov] at hnone
          cases hnone
      · next hov =>
        refine ⟨fun oc hoc => ?_, fun _ => hc⟩
        rw [hov] at hoc
        cases hoc

/-- Witness for C2 at `sample_problem`: the successor set of node
(0,0) contains the edge successor costed by the weighted travel
distances (both node types defaulting to cost 1) and the boundary-link
successor costed exactly by the link's cost. -/
theorem C2_successors_costs_witness :
    ((⟨3, 2⟩ : Qx) * 1 + (⟨1, 1⟩ : Qx) * 1, LM.PathStep.NodeConnection 0,
      (⟨0, 1⟩ : NodeRef)) ∈
      [((⟨5, 2⟩ : Qx), LM.PathStep.NodeConnection 0, (⟨0, 1⟩ : NodeRef)),
       ((⟨9, 4⟩ : Qx), LM.PathStep.BoundaryLink 5, (⟨2, 0⟩ : NodeRef))] ∧
    ((⟨9, 4⟩ : Qx), LM.PathStep.BoundaryLink 5, (⟨2, 0⟩ : NodeRef)) ∈
      [((⟨5, 2⟩ : Qx), LM.PathStep.NodeConnection 0, (⟨0, 1⟩ : NodeRef)),
       ((⟨9, 4⟩ : Qx), LM.PathStep.BoundaryLink 5, (⟨2, 0⟩ : NodeRef))] := by
  have h : LM.successors LM.sample_problem ⟨0, 0⟩ =
      some [((⟨5, 2⟩ : Qx), LM.PathStep.NodeConnection 0,
              (⟨0, 1⟩ : NodeRef)),
            ((⟨9, 4⟩ : Qx), LM.PathStep.BoundaryLink 5,
              (⟨2, 0⟩ : NodeRef))] := by decide
  refine ⟨(C2_successors_costs LM.sample_problem ⟨0, 0⟩ _ h).1 _ _ _ _ 0 _ _ _
    rfl rfl rfl rfl rfl rfl rfl, ?_⟩
  exact (C2_successors_costs LM.sample_problem ⟨0, 0⟩ _ h).2.1 5 _
    (by decide) rfl

/-- A list's optional last element, when present, is a member. -/
theorem list_mem_of_getLast? {α : Type} :
    ∀ {l : List α} {a : α}, l.getLast? = some a → a ∈ l
  | [b], a, h => by
    rw [List.getLast?_singleton] at h
    cases h
    exact List.mem_singleton_self _
  | b :: c :: rest, a, h => by
    rw [List.getLast?_cons_cons] at h
    exact List.mem_cons_of_mem _ (list_mem_of_getLast? h)

/-- Shape of a successful `NodeConnection` step: exactly one polygon
and the edge index are appended to the final island segment; the
boundary-link segments are untouched. -/
theorem apply_path_step_node_connection (nav_data : LM.NavigationData)
    (path path' : LM.Path) (edge_index : ℕ)
    (h : LM.apply_path_step nav_data path
      (LM.PathStep.NodeConnection edge_index) = some path') :
    ∃ (last : LM.IslandSegment) (previous_node appended : ℕ),
      path.island_segments.getLast? = some last ∧
      last.corridor.getLast? = some previous_node ∧
      path'.island_segments = path.island_segments.dropLast ++
        [{ last with corridor := last.corridor ++ [appended]
                     portal_edge_index :=
                       last.portal_edge_index ++ [edge_index] }] ∧
      path'.boundary_link_segments = path.boundary_link_segments := by
  rw [LM.apply_path_step] at h
  simp only [Option.bind_eq_bind, Option.bind_eq_some, Option.pure_def,
    Option.some.injEq] at h
  obtain ⟨last, hlast, previous_node, hprev, island, hisland, island_data,
    hdata, polygon, hpoly, connectivity_entry, hentry, conn, hconn, heq⟩ := h
  subst heq
  exact ⟨last, previous_node, conn.polygon_index, hlast, hprev, rfl, rfl⟩

/-- Shape of a successful `BoundaryLink` step: a boundary-link segment
starting at the previous node is recorded and a fresh island segment is
opened at the link's destination polygon on the destination island. -/
theorem apply_path_step_boundary_link (nav_data : LM.NavigationData)
    (path path' : LM.Path) (link_id : LM.BoundaryLinkId)
    (h : LM.apply_path_step nav_data path
      (LM.PathStep.BoundaryLink link_id) = some path') :
    ∃ (last : LM.IslandSegment) (previous_node : ℕ)
      (link : LM.BoundaryLink),
      path.island_segments.getLast? = some last ∧
      last.corridor.getLast? = some previous_node ∧
      assoc_lookup nav_data.boundary_links link_id = some link ∧
      path'.island_segments = path.island_segments ++
        [{ island_id := link.destination_node.island_id
           corridor := [link.destination_node.polygon_index]
           portal_edge_index := [] }] ∧
      path'.boundary_link_segments = path.boundary_link_segments ++
        [{ starting_node := ⟨last.island_id, previous_node⟩
           boundary_link := link_id }] := by
  rw [LM.apply_path_step] at h
  simp only [Option.bind_eq_bind, Option.bind_eq_some, Option.pure_def,
    Option.some.injEq] at h
  obtain ⟨last, hlast, previous_node, hprev, link, hlink, heq⟩ := h
  subst heq
  exact ⟨last, previous_node, link, hlast, hprev, hlink, rfl, rfl⟩

/-- A successful path step preserves the per-segment length invariant
`len(corridor) = len(portal_edge_index) + 1`. -/
theorem apply_path_step_segment_lengths (nav_data : LM.NavigationData)
    (path path' : LM.Path) (step : LM.PathStep)
    (hinv : ∀ seg ∈ path.island_segments,
      seg.corridor.length = seg.portal_edge_index.length + 1)
    (h : LM.apply_path_step nav_data path step = some path') :
    ∀ seg ∈ path'.island_segments,
      seg.corridor.length = seg.portal_edge_index.length + 1 := by
  cases step with
  | NodeConnection edge_index =>
    obtain ⟨last, previous_node, appended, hlast, _, hsegs, _⟩ :=
      apply_path_step_node_connection nav_data path path' edge_index h
    intro seg hseg
    rw [hsegs] at hseg
    rcases List.mem_append.mp hseg with hmem | hmem
    · exact hinv seg (List.mem_of_mem_dropLast hmem)
    · have hlen := hinv last (list_mem_of_getLast? hlast)
      rcases List.mem_singleton.mp hmem with rfl
      simp only [List.length_append, List.length_singleton]
      omega
  | BoundaryLink link_id =>
    obtain ⟨last, previous_node, link, _, _, _, hsegs, _⟩ :=
      apply_path_step_boundary_link nav_data path path' link_id h
    intro seg hseg
    rw [hsegs] at hseg
    rcases List.mem_append.mp hseg with hmem | hmem
    · exact hinv seg hmem
    · rcases List.mem_singleton.mp hmem with rfl
      rfl

/-- The step fold of `find_path` preserves the per-segment length
invariant. -/
theorem foldl_path_steps_lengths (nav_data : LM.NavigationData) :
    ∀ (steps : List LM.PathStep) (p p' : LM.Path),
      steps.foldlM (LM.apply_path_step nav_data) p = some p' →
      (∀ seg ∈ p.island_segments,
        seg.corridor.length = seg.portal_edge_index.length + 1) →
      (∀ seg ∈ p'.island_segments,
        seg.corridor.length = seg.portal_edge_index.length + 1) := by
  intro steps
  induction steps with
  | nil =>
    intro p p' h hi
    rw [List.foldlM_nil] at h
    cases h
    exact hi
  | cons s rest ih =>
    intro p p' h hi
    rw [List.foldlM_cons] at h
    simp only [Option.bind_eq_bind, Option.bind_eq_some] at h
    obtain ⟨p1, h1, h2⟩ := h
    exact ih p1 p' h2 (apply_path_step_segment_lengths nav_data p p1 s hi h1)

/-- C4: every `Path` returned by `find_path` satisfies
`len(portal_edge_index) = len(corridor) − 1` in every island segment;
moreover a `NodeConnection` step appends exactly one polygon and one
edge index to the final segment, and a `BoundaryLink` step opens a new
island segment at the link's destination polygon on the destination
island while recording the boundary-link segment. -/
theorem C4_find_path_segment_invariants :
    (∀ (astar_find : LM.ArchipelagoPathProblem → LM.AStarPathResult)
       (nav_data : LM.NavigationData) (start_node end_node : NodeRef)
       (override_node_type_costs : List (LM.NodeType × Qx))
       (res : LM.PathResult) (path : LM.Path),
       LM.find_path astar_find nav_data start_node end_node
         override_node_type_costs = some res →
       res.path = some path →
       ∀ seg ∈ path.island_segments,
         seg.corridor.length = seg.portal_edge_index.length + 1) ∧
    (∀ (nav_data : LM.NavigationData) (path path' : LM.Path)
       (edge_index : ℕ),
       LM.apply_path_step nav_data path
         (LM.PathStep.NodeConnection edge_index) = some path' →
       ∃ (last : LM.IslandSegment) (previous_node appended : ℕ),
         path.island_segments.getLast? = some last ∧
         last.corridor.getLast? = some previous_node ∧
         path'.island_segments = path.island_segments.dropLast ++
           [{ last with corridor := last.corridor ++ [appended]
                        portal_edge_index :=
                          last.portal_edge_index ++ [edge_index] }] ∧
         path'.boundary_link_segments = path.boundary_link_segments) ∧
    (∀ (nav_data : LM.NavigationData) (path path' : LM.Path)
       (link_id : LM.BoundaryLinkId),
       LM.apply_path_step nav_data path
         (LM.PathStep.BoundaryLink link_id) = some path' →
       ∃ (last : LM.IslandSegment) (previous_node : ℕ)
         (link : LM.BoundaryLink),
         path.island_segments.getLast? = some last ∧
         last.corridor.getLast? = some previous_node ∧
         assoc_lookup nav_data.boundary_links link_id = some link ∧
         path'.island_segments = path.island_segments ++
           [{ island_id := link.destination_node.island_id
              corridor := [link.destination_node.polygon_index]
              portal_edge_index := [] }] ∧
         path'.boundary_link_segments = path.boundary_link_segments ++
           [{ starting_node := ⟨last.island_id, previous_node⟩
              boundary_link := link_id }]) := by
  refine ⟨?_, apply_path_step_node_connection,
    apply_path_step_boundary_link⟩
  intro astar_find nav_data start_node end_node override_node_type_costs
    res path h hres
  rw [LM.find_path] at h
  cases hb : nav_data.are_nodes_connected start_node end_node with
  | false =>
    rw [hb] at h
    simp only [Bool.not_false, if_true, Option.some.injEq] at h
    subst h
    simp at hres
  | true =>
    rw [hb] at h
    simp only [Bool.not_true, Bool.false_eq_true, if_false,
      Option.bind_eq_bind, Option.bind_eq_some, Option.pure_def,
      Option.some.injEq] at h
    obtain ⟨island, hisl, island_nav_data, hdata, end_polygon, hpoly, h⟩ := h
    split at h
    · simp only [Option.some.injEq] at h
      subst h
      simp at hres
    · simp only [Option.bind_eq_bind, Option.bind_eq_some, Option.pure_def,
        Option.some.injEq] at h
      obtain ⟨output, hfold, heq⟩ := h
      subst heq
      simp only [Option.some.injEq] at hres
      subst hres
      refine foldl_path_steps_lengths nav_data _ _ _ hfold ?_
      intro seg hseg
      rcases List.mem_singleton.mp hseg with rfl
      rfl

/-- Witness for C4 at `sample_nav_data` with a one-step A* answer. -/
theorem C4_find_path_segment_invariants_witness :
    ∀ seg ∈ ((⟨[⟨0, [0, 1], [0]⟩], []⟩ : LM.Path)).island_segments,
      seg.corridor.length = seg.portal_edge_index.length + 1 :=
  C4_find_path_segment_invariants.1
    (fun _ => ⟨⟨3⟩, some [LM.PathStep.NodeConnection 0]⟩)
    LM.sample_nav_data ⟨0, 0⟩ ⟨0, 1⟩ []
    ⟨⟨3⟩, some ⟨[⟨0, [0, 1], [0]⟩], []⟩⟩ ⟨[⟨0, [0, 1], [0]⟩], []⟩
    (by decide) rfl

/-- Storing an edge makes it the looked-up value. -/
theorem lookup_store_self (set : CoreV1.ConnectivitySet) (edge : ℕ × ℕ)
    (state : CoreV1.ConnectivityState) :
    CoreV1.lookup_edge (CoreV1.store_edge set edge state) edge = some state := by
  induction set with
  | nil => simp [CoreV1.store_edge, CoreV1.lookup_edge]
  | cons entry rest ih =>
    rw [CoreV1.store_edge]
    by_cases h : entry.1 = edge
    · rw [if_pos h, CoreV1.lookup_edge, if_pos rfl]
    · rw [if_neg h, CoreV1.lookup_edge, if_neg h]
      exact ih

/-- Storing an edge leaves every other edge's lookup unchanged. -/
theorem lookup_store_other (set : CoreV1.ConnectivitySet)
    (edge other : ℕ × ℕ) (state : CoreV1.ConnectivityState)
    (hne : other ≠ edge) :
    CoreV1.lookup_edge (CoreV1.store_edge set edge state) other =
      CoreV1.lookup_edge set other := by
  induction set with
  | nil =>
    rw [CoreV1.store_edge, CoreV1.lookup_edge, CoreV1.lookup_edge,
      if_neg (fun h => hne h.symm)]
    rfl
  | cons entry rest ih =>
    rw [CoreV1.store_edge]
    by_cases h : entry.1 = edge
    · rw [if_pos h, CoreV1.lookup_edge, CoreV1.lookup_edge,
        if_neg (fun hx : edge = other => hne hx.symm), h,
        if_neg (fun hx : edge = other => hne hx.symm)]
    · rw [if_neg h, CoreV1.lookup_edge, CoreV1.lookup_edge]
      by_cases he : entry.1 = other
      · rw [if_pos he, if_pos he]
      · rw [if_neg he, if_neg he]
        exact ih

/-- Occurrence lists distribute over appending one instance. -/
theorem edge_occurrences_append_one
    (instances : List ((ℕ × ℕ) × (ℕ × ℕ))) (inst : (ℕ × ℕ) × (ℕ × ℕ))
    (edge : ℕ × ℕ) :
    CoreV1.edge_occurrences (instances ++ [inst]) edge =
      CoreV1.edge_occurrences instances edge ++
        (if inst.2 = edge then [inst.1] else []) := by
  rw [CoreV1.edge_occurrences, CoreV1.edge_occurrences, List.filter_append,
    List.map_append]
  by_cases h : inst.2 = edge
  · simp [h]
  · simp [h]

/-- Occurrence-list membership is instance membership. -/
theorem mem_edge_occurrences
    (instances : List ((ℕ × ℕ) × (ℕ × ℕ))) (pair : ℕ × ℕ)
    (edge : ℕ × ℕ) :
    pair ∈ CoreV1.edge_occurrences instances edge ↔
      (pair, edge) ∈ instances := by
  rw [CoreV1.edge_occurrences]
  constructor
  · intro h
    obtain ⟨inst, hmem, hfst⟩ := List.mem_map.mp h
    have hsnd := List.mem_filter.mp hmem
    have : inst = (pair, edge) := by
      obtain ⟨a, b⟩ := inst
      simp only at hfst
      subst hfst
      simp only [decide_eq_true_eq] at hsnd
      rw [hsnd.2]
    rw [← this]
    exact (List.mem_filter.mp hmem).1
  · intro h
    exact List.mem_map.mpr ⟨(pair, edge), List.mem_filter.mpr
      ⟨h, by simp⟩, rfl⟩

/-- Keys of a store are the old keys possibly extended by the stored
edge. -/
theorem mem_keys_store (set : CoreV1.ConnectivitySet) (edge : ℕ × ℕ)
    (state : CoreV1.ConnectivityState) (a : ℕ × ℕ)
    (h : a ∈ (CoreV1.store_edge set edge state).map Prod.fst) :
    a ∈ set.map Prod.fst ∨ a = edge := by
  induction set with
  | nil =>
    rw [CoreV1.store_edge] at h
    simp at h
    exact Or.inr h
  | cons entry rest ih =>
    rw [CoreV1.store_edge] at h
    by_cases he : entry.1 = edge
    · rw [if_pos he] at h
      simp only [List.map_cons, List.mem_cons] at h ⊢
      rcases h with h | h
      · exact Or.inr h
      · exact Or.inl (Or.inr h)
    · rw [if_neg he] at h
      simp only [List.map_cons, List.mem_cons] at h ⊢
      rcases h with h | h
      · exact Or.inl (Or.inl h)
      · rcases ih h with h' | h'
        · exact Or.inl (Or.inr h')
        · exact Or.inr h'

/-- Storing preserves distinctness of the keys. -/
theorem nodup_keys_store (set : CoreV1.ConnectivitySet) (edge : ℕ × ℕ)
    (state : CoreV1.ConnectivityState)
    (h : (set.map Prod.fst).Nodup) :
    ((CoreV1.store_edge set edge state).map Prod.fst).Nodup := by
  induction set with
  | nil => simp [CoreV1.store_edge]
  | cons entry rest ih =>
    rw [CoreV1.store_edge]
    simp only [List.map_cons, List.nodup_cons] at h
    by_cases he : entry.1 = edge
    · rw [if_pos he]
      simp only [List.map_cons, List.nodup_cons]
      exact ⟨he ▸ h.1, h.2⟩
    · rw [if_neg he]
      simp only [List.map_cons, List.nodup_cons]
      refine ⟨fun hmem => ?_, ih h.2⟩
      rcases mem_keys_store rest edge state entry.1 hmem with h' | h'
      · exact h.1 h'
      · exact he h'

/-- A looked-up binding is a member of the association list. -/
theorem lookup_edge_mem (set : CoreV1.ConnectivitySet) (edge : ℕ × ℕ)
    (state : CoreV1.ConnectivityState)
    (h : CoreV1.lookup_edge set edge = some state) : (edge, state) ∈ set := by
  induction set with
  | nil => cases h
  | cons entry rest ih =>
    rw [CoreV1.lookup_edge] at h
    by_cases he : entry.1 = edge
    · rw [if_pos he] at h
      cases h
      exact List.mem_cons.mpr (Or.inl (by rw [← he]))
    · rw [if_neg he] at h
      exact List.mem_cons_of_mem _ (ih h)

/-- With distinct keys, membership determines the lookup. -/
theorem mem_lookup_edge (set : CoreV1.ConnectivitySet) (edge : ℕ × ℕ)
    (state : CoreV1.ConnectivityState)
    (hnodup : (set.map Prod.fst).Nodup) (h : (edge, state) ∈ set) :
    CoreV1.lookup_edge set edge = some state := by
  induction set with
  | nil => cases h
  | cons entry rest ih =>
    simp only [List.map_cons, List.nodup_cons] at hnodup
    rw [CoreV1.lookup_edge]
    rcases List.mem_cons.mp h with h' | h'
    · subst h'
      rw [if_pos rfl]
    · by_cases he : entry.1 = edge
      · exfalso
        apply hnodup.1
        rw [he]
        exact List.mem_map.mpr ⟨(edge, state), h', rfl⟩
      · rw [if_neg he]
        exact ih hnodup.2 h'

/-- One connectivity update advances the occurrence invariant by the
processed instance, and keeps the keys distinct. -/
theorem conn_set_matches_update (set set' : CoreV1.ConnectivitySet)
    (instances : List ((ℕ × ℕ) × (ℕ × ℕ))) (edge : ℕ × ℕ) (p i : ℕ)
    (hm : CoreV1.conn_set_matches set instances)
    (hnodup : (set.map Prod.fst).Nodup)
    (h : CoreV1.connectivity_update set edge p i = Except.ok set') :
    CoreV1.conn_set_matches set' (instances ++ [((p, i), edge)]) ∧
      (set'.map Prod.fst).Nodup := by
  rw [CoreV1.connectivity_update] at h
  cases hl : CoreV1.lookup_edge set edge with
  | none =>
    rw [hl] at h
    have h2 : Except.ok (CoreV1.store_edge set edge
        (CoreV1.ConnectivityState.Boundary p i)) =
        (Except.ok set' : Except CoreV1.ValidationError _) := h
    cases h2
    refine ⟨?_, nodup_keys_store _ _ _ hnodup⟩
    intro e
    by_cases he : e = edge
    · subst he
      rw [lookup_store_self]
      show CoreV1.edge_occurrences (instances ++ [((p, i), e)]) e = [(p, i)]
      rw [edge_occurrences_append_one]
      have hocc : CoreV1.edge_occurrences instances e = [] := by
        have hme := hm e
        rw [hl] at hme
        exact hme
      rw [hocc, if_pos rfl]
      rfl
    · rw [lookup_store_other _ _ _ _ he]
      have hme := hm e
      rw [edge_occurrences_append_one]
      rw [if_neg (fun hx : edge = e => he hx.symm), List.append_nil]
      exact hme
  | some state =>
    rw [hl] at h
    cases state with
    | Disconnected =>
      exfalso
      have hme := hm edge
      rw [hl] at hme
      exact hme
    | Boundary p1 i1 =>
      have h2 : Except.ok (CoreV1.store_edge set edge
          (CoreV1.ConnectivityState.Connected p1 i1 p i)) =
          (Except.ok set' : Except CoreV1.ValidationError _) := h
      cases h2
      refine ⟨?_, nodup_keys_store _ _ _ hnodup⟩
      intro e
      by_cases he : e = edge
      · subst he
        rw [lookup_store_self]
        show CoreV1.edge_occurrences (instances ++ [((p, i), e)]) e =
          [(p1, i1), (p, i)]
        rw [edge_occurrences_append_one]
        have hocc : CoreV1.edge_occurrences instances e = [(p1, i1)] := by
          have hme := hm e
          rw [hl] at hme
          exact hme
        rw [hocc, if_pos rfl]
        rfl
      · rw [lookup_store_other _ _ _ _ he]
        have hme := hm e
        rw [edge_occurrences_append_one]
        rw [if_neg (fun hx : edge = e => he hx.symm), List.append_nil]
        exact hme
    | Connected p1 i1 p2 i2 =>
      exact (Except.noConfusion h)

/-- A successful edge step is exactly a successful connectivity update
on the normalized edge of that position. -/
theorem validate_edge_step_ok (vertices : List Vec3q) (polygon : List ℕ)
    (polygon_index : ℕ) (set set' : CoreV1.ConnectivitySet) (i : ℕ)
    (h : CoreV1.validate_edge_step vertices polygon polygon_index set i =
      Except.ok set') :
    CoreV1.connectivity_update set (CoreV1.polygon_edge polygon i)
      polygon_index i = Except.ok set' := by
  rw [CoreV1.validate_edge_step] at h
  split at h
  · exact (Except.noConfusion h)
  · split at h
    · exact (Except.noConfusion h)
    · next heq =>
      split at h
      · exact (Except.noConfusion h)
      · cases h
        exact heq

/-- The per-polygon edge loop advances the occurrence invariant by all
of the polygon's instances. -/
theorem validate_polygon_edges_matches (vertices : List Vec3q)
    (polygon : List ℕ) (polygon_index : ℕ) :
    ∀ (index_list : List ℕ) (set set' : CoreV1.ConnectivitySet)
      (instances : List ((ℕ × ℕ) × (ℕ × ℕ))),
      CoreV1.conn_set_matches set instances →
      (set.map Prod.fst).Nodup →
      CoreV1.validate_polygon_edges vertices polygon polygon_index
        index_list set = Except.ok set' →
      CoreV1.conn_set_matches set'
        (instances ++ index_list.map
          (fun i => ((polygon_index, i),
            CoreV1.polygon_edge polygon i))) ∧
        (set'.map Prod.fst).Nodup := by
  intro index_list
  induction index_list with
  | nil =>
    intro set set' instances hm hnodup h
    rw [CoreV1.validate_polygon_edges] at h
    cases h
    rw [List.map_nil, List.append_nil]
    exact ⟨hm, hnodup⟩
  | cons i rest ih =>
    intro set set' instances hm hnodup h
    rw [CoreV1.validate_polygon_edges] at h
    split at h
    · exact (Except.noConfusion h)
    · next set1 heq =>
      have hstep := validate_edge_step_ok vertices polygon polygon_index
        set set1 i heq
      have hinv := conn_set_matches_update set set1 instances
        (CoreV1.polygon_edge polygon i) polygon_index i hm hnodup hstep
      have hres := ih set1 set'
        (instances ++ [((polygon_index, i), CoreV1.polygon_edge polygon i)])
        hinv.1 hinv.2 h
      rw [List.map_cons]
      rw [show instances ++ (((polygon_index, i),
          CoreV1.polygon_edge polygon i) ::
          rest.map (fun j => ((polygon_index, j),
            CoreV1.polygon_edge polygon j))) =
        (instances ++ [((polygon_index, i),
          CoreV1.polygon_edge polygon i)]) ++
          rest.map (fun j => ((polygon_index, j),
            CoreV1.polygon_edge polygon j)) by
        rw [List.append_assoc]
        rfl]
      exact hres

/-- The outer polygon loop advances the occurrence invariant by all
remaining mesh instances. -/
theorem validate_polygons_matches (vertices : List Vec3q) :
    ∀ (polygons : List (List ℕ)) (polygon_index : ℕ)
      (set set' : CoreV1.ConnectivitySet)
      (instances : List ((ℕ × ℕ) × (ℕ × ℕ))),
      CoreV1.conn_set_matches set instances →
      (set.map Prod.fst).Nodup →
      CoreV1.validate_polygons vertices polygon_index polygons set =
        Except.ok set' →
      CoreV1.conn_set_matches set'
        (instances ++ CoreV1.mesh_instances polygon_index polygons) ∧
        (set'.map Prod.fst).Nodup := by
  intro polygons
  induction polygons with
  | nil =>
    intro polygon_index set set' instances hm hnodup h
    rw [CoreV1.validate_polygons] at h
    cases h
    rw [CoreV1.mesh_instances, List.append_nil]
    exact ⟨hm, hnodup⟩
  | cons polygon rest ih =>
    intro polygon_index set set' instances hm hnodup h
    rw [CoreV1.validate_polygons] at h
    split at h
    · exact (Except.noConfusion h)
    · split at h
      · exact (Except.noConfusion h)
      · split at h
        · exact (Except.noConfusion h)
        · next set1 heq =>
          have hinner := validate_polygon_edges_matches vertices polygon
            polygon_index (List.range polygon.length) set set1 instances
            hm hnodup heq
          have hres := ih (polygon_index + 1) set1 set'
            (instances ++ CoreV1.polygon_instances polygon polygon_index)
            (by rw [CoreV1.polygon_instances]; exact hinner.1)
            hinner.2 h
          rw [CoreV1.mesh_instances, ← List.append_assoc]
          exact hres

/-- A successful push appends the entry to the addressed polygon's
list, keeps lengths, and preserves every other polygon's list. -/
theorem push_connectivity_ok (connectivity connectivity' :
      List (List CoreV1.Connectivity)) (p : ℕ)
    (entry : CoreV1.Connectivity)
    (h : CoreV1.push_connectivity connectivity p entry =
      some connectivity') :
    connectivity'.length = connectivity.length ∧
    connectivity'.getD p [] = connectivity.getD p [] ++ [entry] ∧
    ∀ q, q ≠ p → connectivity'.getD q [] = connectivity.getD q [] := by
  rw [CoreV1.push_connectivity] at h
  split at h
  · exact (Option.noConfusion h)
  · next list hget =>
    cases h
    have hlt : p < connectivity.length := (List.get?_eq_some.mp hget).1
    refine ⟨List.length_set _ _ _, ?_, ?_⟩
    · rw [List.getD_eq_getElem?_getD, List.getD_eq_getElem?_getD,
        List.getElem?_set_self hlt, ← List.get?_eq_getElem?, hget]
      rfl
    · intro q hq
      rw [List.getD_eq_getElem?_getD, List.getD_eq_getElem?_getD,
        List.getElem?_set_ne (fun hx => hq hx.symm)]

/-- Push succeeds whenever the polygon index is in range. -/
theorem push_connectivity_isSome (connectivity :
      List (List CoreV1.Connectivity)) (p : ℕ)
    (entry : CoreV1.Connectivity) (h : p < connectivity.length) :
    (CoreV1.push_connectivity connectivity p entry).isSome := by
  rw [CoreV1.push_connectivity]
  cases hget : connectivity.get? p with
  | none =>
    rw [List.get?_eq_getElem?, List.getElem?_eq_none_iff] at hget
    omega
  | some list => rfl

/-- The final pass only grows the per-polygon connectivity lists and
the boundary-edge list. -/
theorem build_connectivity_mono :
    ∀ (set : CoreV1.ConnectivitySet)
      (connectivity connectivity' : List (List CoreV1.Connectivity))
      (boundary_edges boundary_edges' : List CoreV1.MeshEdgeRef),
      CoreV1.build_connectivity set connectivity boundary_edges =
        some (connectivity', boundary_edges') →
      (∀ q x, x ∈ connectivity.getD q [] → x ∈ connectivity'.getD q []) ∧
      (∀ r, r ∈ boundary_edges → r ∈ boundary_edges') := by
  intro set
  induction set with
  | nil =>
    intro connectivity connectivity' boundary_edges boundary_edges' h
    rw [CoreV1.build_connectivity] at h
    cases h
    exact ⟨fun q x hx => hx, fun r hr => hr⟩
  | cons entry rest ih =>
    intro connectivity connectivity' boundary_edges boundary_edges' h
    obtain ⟨e0, state⟩ := entry
    cases state with
    | Disconnected => rw [CoreV1.build_connectivity] at h; exact (Option.noConfusion h)
    | Boundary p i =>
      rw [CoreV1.build_connectivity] at h
      have hres := ih connectivity connectivity'
        (boundary_edges ++ [⟨p, i⟩]) boundary_edges' h
      exact ⟨hres.1, fun r hr =>
        hres.2 r (List.mem_append_left _ hr)⟩
    | Connected p1 i1 p2 i2 =>
      rw [CoreV1.build_connectivity] at h
      simp only [Option.bind_eq_bind, Option.bind_eq_some] at h
      obtain ⟨conn1, hpush1, conn2, hpush2, h⟩ := h
      have h1 := push_connectivity_ok _ _ _ _ hpush1
      have h2 := push_connectivity_ok _ _ _ _ hpush2
      have hres := ih conn2 connectivity' boundary_edges boundary_edges' h
      refine ⟨fun q x hx => ?_, hres.2⟩
      refine hres.1 q x ?_
      by_cases hq2 : q = p2
      · subst hq2
        rw [h2.2.1]
        by_cases hq1 : q = p1
        · subst hq1
          rw [h1.2.1]
          exact List.mem_append_left _ (List.mem_append_left _ hx)
        · rw [h1.2.2 q hq1]
          exact List.mem_append_left _ hx
      · rw [h2.2.2 q hq2]
        by_cases hq1 : q = p1
        · subst hq1
          rw [h1.2.1]
          exact List.mem_append_left _ hx
        · rw [h1.2.2 q hq1]
          exact hx

/-- Every Connected entry of the set ends up as mutual connectivity
records of its two polygons. -/
theorem build_connectivity_connected_mem :
    ∀ (set : CoreV1.ConnectivitySet)
      (connectivity connectivity' : List (List CoreV1.Connectivity))
      (boundary_edges boundary_edges' : List CoreV1.MeshEdgeRef)
      (e : ℕ × ℕ) (p1 i1 p2 i2 : ℕ),
      CoreV1.build_connectivity set connectivity boundary_edges =
        some (connectivity', boundary_edges') →
      (e, CoreV1.ConnectivityState.Connected p1 i1 p2 i2) ∈ set →
      (⟨i1, p2⟩ : CoreV1.Connectivity) ∈ connectivity'.getD p1 [] ∧
      (⟨i2, p1⟩ : CoreV1.Connectivity) ∈ connectivity'.getD p2 [] := by
  intro set
  induction set with
  | nil =>
    intro _ _ _ _ _ _ _ _ _ _ hmem
    cases hmem
  | cons entry rest ih =>
    intro connectivity connectivity' boundary_edges boundary_edges' e p1 i1
      p2 i2 h hmem
    obtain ⟨e0, state⟩ := entry
    rcases List.mem_cons.mp hmem with hhead | htail
    · cases hhead
      rw [CoreV1.build_connectivity] at h
      simp only [Option.bind_eq_bind, Option.bind_eq_some] at h
      obtain ⟨conn1, hpush1, conn2, hpush2, h⟩ := h
      have h1 := push_connectivity_ok _ _ _ _ hpush1
      have h2 := push_connectivity_ok _ _ _ _ hpush2
      have hmono := build_connectivity_mono rest conn2 connectivity'
        boundary_edges boundary_edges' h
      constructor
      · refine hmono.1 p1 _ ?_
        by_cases hq : p1 = p2
        · subst hq
          rw [h2.2.1, h1.2.1]
          exact List.mem_append_left _
            (List.mem_append_right _ (List.mem_singleton_self _))
        · rw [h2.2.2 p1 hq, h1.2.1]
          exact List.mem_append_right _ (List.mem_singleton_self _)
      · refine hmono.1 p2 _ ?_
        rw [h2.2.1]
        exact List.mem_append_right _ (List.mem_singleton_self _)
    · cases state with
      | Disconnected =>
        rw [CoreV1.build_connectivity] at h
        exact (Option.noConfusion h)
      | Boundary p i =>
        rw [CoreV1.build_connectivity] at h
        exact ih _ _ _ _ _ _ _ _ _ h htail
      | Connected q1 j1 q2 j2 =>
        rw [CoreV1.build_connectivity] at h
        simp only [Option.bind_eq_bind, Option.bind_eq_some] at h
        obtain ⟨conn1, hpush1, conn2, hpush2, h⟩ := h
        exact ih _ _ _ _ _ _ _ _ _ h htail

/-- The boundary-edge list built by the final pass holds exactly the
initial entries plus one entry per Boundary state of the set. -/
theorem build_connectivity_boundary_iff :
    ∀ (set : CoreV1.ConnectivitySet)
      (connectivity connectivity' : List (List CoreV1.Connectivity))
      (boundary_edges boundary_edges' : List CoreV1.MeshEdgeRef),
      CoreV1.build_connectivity set connectivity boundary_edges =
        some (connectivity', boundary_edges') →
      ∀ r : CoreV1.MeshEdgeRef,
        r ∈ boundary_edges' ↔ r ∈ boundary_edges ∨
          ∃ e p i, (e, CoreV1.ConnectivityState.Boundary p i) ∈ set ∧
            r = (⟨p, i⟩ : CoreV1.MeshEdgeRef) := by
  intro set
  induction set with
  | nil =>
    intro connectivity connectivity' boundary_edges boundary_edges' h r
    rw [CoreV1.build_connectivity] at h
    cases h
    simp
  | cons entry rest ih =>
    intro connectivity connectivity' boundary_edges boundary_edges' h r
    obtain ⟨e0, state⟩ := entry
    cases state with
    | Disconnected =>
      rw [CoreV1.build_connectivity] at h
      exact (Option.noConfusion h)
    | Boundary p i =>
      rw [CoreV1.build_connectivity] at h
      rw [ih connectivity connectivity' (boundary_edges ++ [⟨p, i⟩])
        boundary_edges' h r]
      constructor
      · rintro (hmem | ⟨e, p', i', hmem, hr⟩)
        · rcases List.mem_append.mp hmem with hmem | hmem
          · exact Or.inl hmem
          · rcases List.mem_singleton.mp hmem with rfl
            exact Or.inr ⟨e0, p, i, List.mem_cons_self _ _, rfl⟩
        · exact Or.inr ⟨e, p', i', List.mem_cons_of_mem _ hmem, hr⟩
      · rintro (hmem | ⟨e, p', i', hmem, hr⟩)
        · exact Or.inl (List.mem_append_left _ hmem)
        · rcases List.mem_cons.mp hmem with hhead | htail
          · obtain ⟨he, hst⟩ := Prod.mk.injEq .. ▸ hhead
            cases hst
            exact Or.inl (List.mem_append_right _
              (hr ▸ List.mem_singleton_self _))
          · exact Or.inr ⟨e, p', i', htail, hr⟩
    | Connected p1 i1 p2 i2 =>
      rw [CoreV1.build_connectivity] at h
      simp only [Option.bind_eq_bind, Option.bind_eq_some] at h
      obtain ⟨conn1, hpush1, conn2, hpush2, h⟩ := h
      rw [ih conn2 connectivity' boundary_edges boundary_edges' h r]
      constructor
      · rintro (hmem | ⟨e, p', i', hmem, hr⟩)
        · exact Or.inl hmem
        · exact Or.inr ⟨e, p', i', List.mem_cons_of_mem _ hmem, hr⟩
      · rintro (hmem | ⟨e, p', i', hmem, hr⟩)
        · exact Or.inl hmem
        · rcases List.mem_cons.mp hmem with hhead | htail
          · obtain ⟨he, hst⟩ := Prod.mk.injEq .. ▸ hhead
            cases hst
          · exact Or.inr ⟨e, p', i', htail, hr⟩

/-- The final pass succeeds when no state is Disconnected and all
Connected polygon indices are in range. -/
theorem build_connectivity_isSome :
    ∀ (set : CoreV1.ConnectivitySet)
      (connectivity : List (List CoreV1.Connectivity))
      (boundary_edges : List CoreV1.MeshEdgeRef),
      (∀ e p1 i1 p2 i2,
        (e, CoreV1.ConnectivityState.Connected p1 i1 p2 i2) ∈ set →
        p1 < connectivity.length ∧ p2 < connectivity.length) →
      (∀ e, (e, CoreV1.ConnectivityState.Disconnected) ∉ set) →
      (CoreV1.build_connectivity set connectivity
        boundary_edges).isSome := by
  intro set
  induction set with
  | nil =>
    intro connectivity boundary_edges _ _
    rw [CoreV1.build_connectivity]
    rfl
  | cons entry rest ih =>
    intro connectivity boundary_edges hbounds hdisc
    obtain ⟨e0, state⟩ := entry
    cases state with
    | Disconnected =>
      exact absurd (List.mem_cons_self _ _) (hdisc e0)
    | Boundary p i =>
      rw [CoreV1.build_connectivity]
      exact ih connectivity (boundary_edges ++ [⟨p, i⟩])
        (fun e p1 i1 p2 i2 hmem =>
          hbounds e p1 i1 p2 i2 (List.mem_cons_of_mem _ hmem))
        (fun e hmem => hdisc e (List.mem_cons_of_mem _ hmem))
    | Connected p1 i1 p2 i2 =>
      have hb := hbounds e0 p1 i1 p2 i2 (List.mem_cons_self _ _)
      obtain ⟨conn1, hp1⟩ := Option.isSome_iff_exists.mp
        (push_connectivity_isSome connectivity p1 ⟨i1, p2⟩ hb.1)
      have hlen1 := (push_connectivity_ok _ _ _ _ hp1).1
      obtain ⟨conn2, hp2⟩ := Option.isSome_iff_exists.mp
        (push_connectivity_isSome conn1 p2 ⟨i2, p1⟩ (by omega))
      have hlen2 := (push_connectivity_ok _ _ _ _ hp2).1
      rw [CoreV1.build_connectivity]
      simp only [Option.bind_eq_bind, hp1, Option.some_bind, hp2]
      exact ih conn2 boundary_edges
        (fun e q1 j1 q2 j2 hmem => by
          have := hbounds e q1 j1 q2 j2 (List.mem_cons_of_mem _ hmem)
          omega)
        (fun e hmem => hdisc e (List.mem_cons_of_mem _ hmem))

/-- Characterization of the mesh's edge instances: `((p, i), e)` is an
instance iff polygon `p` exists, `i` is a position in it, and its
normalized edge there is `e`. -/
theorem mem_mesh_instances :
    ∀ (polygons : List (List ℕ)) (p0 p i : ℕ) (e : ℕ × ℕ),
      ((p, i), e) ∈ CoreV1.mesh_instances p0 polygons ↔
        ∃ polygon, p0 ≤ p ∧ polygons.get? (p - p0) = some polygon ∧
          i < polygon.length ∧ CoreV1.polygon_edge polygon i = e := by
  intro polygons
  induction polygons with
  | nil =>
    intro p0 p i e
    rw [CoreV1.mesh_instances]
    simp
  | cons polygon rest ih =>
    intro p0 p i e
    rw [CoreV1.mesh_instances, List.mem_append]
    constructor
    · rintro (hmem | hmem)
      · rw [CoreV1.polygon_instances] at hmem
        obtain ⟨j, hj, heq⟩ := List.mem_map.mp hmem
        obtain ⟨hpair, hedge⟩ := Prod.mk.injEq .. ▸ heq
        obtain ⟨hp, hi⟩ := Prod.mk.injEq .. ▸ hpair
        subst hp
        subst hi
        refine ⟨polygon, le_refl _, ?_, List.mem_range.mp hj, hedge⟩
        rw [Nat.sub_self]
        rfl
      · obtain ⟨polygon', hle, hget, hi, hedge⟩ := (ih (p0 + 1) p i e).mp hmem
        refine ⟨polygon', by omega, ?_, hi, hedge⟩
        have harith : p - p0 = (p - (p0 + 1)) + 1 := by omega
        rw [harith, List.get?_cons_succ]
        exact hget
    · rintro ⟨polygon', hle, hget, hi, hedge⟩
      by_cases hp : p = p0
      · subst hp
        rw [Nat.sub_self, List.get?_cons_zero] at hget
        cases hget
        refine Or.inl ?_
        rw [CoreV1.polygon_instances]
        refine List.mem_map.mpr ⟨i, List.mem_range.mpr hi, ?_⟩
        rw [hedge]
      · refine Or.inr ((ih (p0 + 1) p i e).mpr
          ⟨polygon', by omega, ?_, hi, hedge⟩)
        have harith : p - p0 = (p - (p0 + 1)) + 1 := by omega
        rw [harith, List.get?_cons_succ] at hget
        exact hget

/-- Extraction from a successful `validate`: the polygon loop produced
some connectivity set, the final pass produced exactly the stored
connectivity and boundary edges, and the polygons pass through
unchanged. -/
theorem validate_ok_extract (mesh : CoreV1.NavigationMesh)
    (valid : CoreV1.ValidNavigationMesh)
    (h : mesh.validate = some (Except.ok valid)) :
    ∃ set,
      CoreV1.validate_polygons mesh.vertices 0 mesh.polygons [] =
        Except.ok set ∧
      CoreV1.build_connectivity set
        (List.replicate mesh.polygons.length []) [] =
        some (valid.connectivity, valid.boundary_edges) ∧
      valid.polygons = mesh.polygons := by
  rw [CoreV1.NavigationMesh.validate] at h
  simp only [Option.bind_eq_bind, Option.bind_eq_some] at h
  obtain ⟨bounds, hbounds, h⟩ := h
  split at h
  · simp only [Option.some.injEq] at h
    cases h
  · next set hset =>
    cases hbuild : CoreV1.build_connectivity set
        (List.replicate mesh.polygons.length []) [] with
    | none =>
      rw [hbuild] at h
      exact (Option.noConfusion h)
    | some pair =>
      obtain ⟨conn, bed⟩ := pair
      rw [hbuild] at h
      simp only [Option.some.injEq, Except.ok.injEq] at h
      subst h
      exact ⟨set, hset, hbuild, rfl⟩

/-- C3 (amended): for every accepted mesh, (a) at most two polygons use
any undirected edge; (b) an edge used by two distinct polygons yields a
connectivity entry in each referencing the other; (c) `boundary_edges`
holds exactly the `(polygon, edge)` positions whose undirected edge
occurs exactly once among all polygon edge traversals — occurrences are
counted with multiplicity, since a single polygon may traverse the same
undirected edge twice and such an edge is classified Connected, not
boundary. -/
theorem C3_validate_connectivity (mesh : CoreV1.NavigationMesh)
    (valid : CoreV1.ValidNavigationMesh)
    (h : mesh.validate = some (Except.ok valid)) :
    (∀ (e : ℕ × ℕ) (p q r : ℕ), p ≠ q → p ≠ r → q ≠ r →
      CoreV1.polygon_uses_edge mesh.polygons p e →
      CoreV1.polygon_uses_edge mesh.polygons q e →
      CoreV1.polygon_uses_edge mesh.polygons r e → False) ∧
    (∀ (e : ℕ × ℕ) (p q : ℕ), p ≠ q →
      CoreV1.polygon_uses_edge mesh.polygons p e →
      CoreV1.polygon_uses_edge mesh.polygons q e →
      ∃ i j, (⟨i, q⟩ : CoreV1.Connectivity) ∈ valid.connectivity.getD p [] ∧
        (⟨j, p⟩ : CoreV1.Connectivity) ∈ valid.connectivity.getD q []) ∧
    (∀ (p i : ℕ),
      (⟨p, i⟩ : CoreV1.MeshEdgeRef) ∈ valid.boundary_edges ↔
        ∃ e, ((p, i), e) ∈ CoreV1.mesh_instances 0 mesh.polygons ∧
          (CoreV1.edge_occurrences
            (CoreV1.mesh_instances 0 mesh.polygons) e).length = 1) := by
  obtain ⟨set, hset, hbuild, _⟩ := validate_ok_extract mesh valid h
  have hinv := validate_polygons_matches mesh.vertices mesh.polygons 0 []
    set [] (fun _ => rfl) List.nodup_nil hset
  have hm : CoreV1.conn_set_matches set
      (CoreV1.mesh_instances 0 mesh.polygons) := by
    have hx := hinv.1
    rwa [List.nil_append] at hx
  have hnodup := hinv.2
  refine ⟨?_, ?_, ?_⟩
  · intro e p q r hpq hpr hqr hp hq hr
    obtain ⟨ip, hip⟩ := hp
    obtain ⟨iq, hiq⟩ := hq
    obtain ⟨ir, hir⟩ := hr
    have hop := (mem_edge_occurrences _ _ _).mpr hip
    have hoq := (mem_edge_occurrences _ _ _).mpr hiq
    have hor := (mem_edge_occurrences _ _ _).mpr hir
    have hme := hm e
    cases hl : CoreV1.lookup_edge set e with
    | none =>
      rw [hl] at hme
      rw [show CoreV1.edge_occurrences
        (CoreV1.mesh_instances 0 mesh.polygons) e = [] from hme] at hop
      cases hop
    | some state =>
      rw [hl] at hme
      cases state with
      | Disconnected => exact hme
      | Boundary p1 i1 =>
        rw [show CoreV1.edge_occurrences
          (CoreV1.mesh_instances 0 mesh.polygons) e = [(p1, i1)]
          from hme] at hop hoq
        have h1 : p = p1 := congrArg Prod.fst (List.mem_singleton.mp hop)
        have h2 : q = p1 := congrArg Prod.fst (List.mem_singleton.mp hoq)
        exact hpq (h1.trans h2.symm)
      | Connected p1 i1 p2 i2 =>
        rw [show CoreV1.edge_occurrences
          (CoreV1.mesh_instances 0 mesh.polygons) e = [(p1, i1), (p2, i2)]
          from hme] at hop hoq hor
        have d1 : p = p1 ∨ p = p2 := by
          rcases List.mem_cons.mp hop with hx | hx
          · exact Or.inl (congrArg Prod.fst hx)
          · exact Or.inr (congrArg Prod.fst (List.mem_singleton.mp hx))
        have d2 : q = p1 ∨ q = p2 := by
          rcases List.mem_cons.mp hoq with hx | hx
          · exact Or.inl (congrArg Prod.fst hx)
          · exact Or.inr (congrArg Prod.fst (List.mem_singleton.mp hx))
        have d3 : r = p1 ∨ r = p2 := by
          rcases List.mem_cons.mp hor with hx | hx
          · exact Or.inl (congrArg Prod.fst hx)
          · exact Or.inr (congrArg Prod.fst (List.mem_singleton.mp hx))
        rcases d1 with e1 | e1 <;> rcases d2 with e2 | e2 <;>
          rcases d3 with e3 | e3 <;> omega
  · intro e p q hpq hp hq
    obtain ⟨ip, hip⟩ := hp
    obtain ⟨iq, hiq⟩ := hq
    have hop := (mem_edge_occurrences _ _ _).mpr hip
    have hoq := (mem_edge_occurrences _ _ _).mpr hiq
    have hme := hm e
    cases hl : CoreV1.lookup_edge set e with
    | none =>
      rw [hl] at hme
      rw [show CoreV1.edge_occurrences
        (CoreV1.mesh_instances 0 mesh.polygons) e = [] from hme] at hop
      cases hop
    | some state =>
      rw [hl] at hme
      cases state with
      | Disconnected => exact absurd hme (fun hx => hx)
      | Boundary p1 i1 =>
        rw [show CoreV1.edge_occurrences
          (CoreV1.mesh_instances 0 mesh.polygons) e = [(p1, i1)]
          from hme] at hop hoq
        have h1 : p = p1 := congrArg Prod.fst (List.mem_singleton.mp hop)
        have h2 : q = p1 := congrArg Prod.fst (List.mem_singleton.mp hoq)
        exact absurd (h1.trans h2.symm) hpq
      | Connected p1 i1 p2 i2 =>
        rw [show CoreV1.edge_occurrences
          (CoreV1.mesh_instances 0 mesh.polygons) e = [(p1, i1), (p2, i2)]
          from hme] at hop hoq
        have hconn := build_connectivity_connected_mem set _ _ _ _ e p1 i1
          p2 i2 hbuild (lookup_edge_mem set e _ hl)
        have d1 : (p, ip) = (p1, i1) ∨ (p, ip) = (p2, i2) := by
          rcases List.mem_cons.mp hop with hx | hx
          · exact Or.inl hx
          · exact Or.inr (List.mem_singleton.mp hx)
        have d2 : (q, iq) = (p1, i1) ∨ (q, iq) = (p2, i2) := by
          rcases List.mem_cons.mp hoq with hx | hx
          · exact Or.inl hx
          · exact Or.inr (List.mem_singleton.mp hx)
        rcases d1 with e1 | e1 <;> rcases d2 with e2 | e2
        · exact absurd ((congrArg Prod.fst e1).trans
            (congrArg Prod.fst e2).symm) hpq
        · obtain ⟨hp1, _⟩ := Prod.mk.injEq .. ▸ e1
          obtain ⟨hq2, _⟩ := Prod.mk.injEq .. ▸ e2
          subst hp1
          subst hq2
          exact ⟨i1, i2, hconn.1, hconn.2⟩
        · obtain ⟨hp2, _⟩ := Prod.mk.injEq .. ▸ e1
          obtain ⟨hq1, _⟩ := Prod.mk.injEq .. ▸ e2
          subst hp2
          subst hq1
          exact ⟨i2, i1, hconn.2, hconn.1⟩
        · exact absurd ((congrArg Prod.fst e1).trans
            (congrArg Prod.fst e2).symm) hpq
  · intro p i
    have hbed := build_connectivity_boundary_iff set _ _ [] _ hbuild ⟨p, i⟩
    constructor
    · intro hmem
      rcases (hbed.mp hmem) with hx | ⟨e, p', i', hentry, hr⟩
      · cases hx
      · obtain ⟨hp', hi'⟩ := CoreV1.MeshEdgeRef.mk.injEq .. ▸ hr
        subst hp'
        subst hi'
        have hl := mem_lookup_edge set e _ hnodup hentry
        have hme := hm e
        rw [hl] at hme
        have hocc : CoreV1.edge_occurrences
            (CoreV1.mesh_instances 0 mesh.polygons) e = [(p, i)] := hme
        refine ⟨e, ?_, ?_⟩
        · exact (mem_edge_occurrences _ _ _).mp
            (hocc ▸ List.mem_singleton_self _)
        · rw [hocc]
          rfl
    · rintro ⟨e, hinst, hlen⟩
      have hop := (mem_edge_occurrences _ _ _).mpr hinst
      have hme := hm e
      cases hl : CoreV1.lookup_edge set e with
      | none =>
        rw [hl] at hme
        rw [show CoreV1.edge_occurrences
          (CoreV1.mesh_instances 0 mesh.polygons) e = [] from hme] at hop
        cases hop
      | some state =>
        rw [hl] at hme
        cases state with
        | Disconnected => exact absurd hme (fun hx => hx)
        | Boundary p1 i1 =>
          have hocc : CoreV1.edge_occurrences
              (CoreV1.mesh_instances 0 mesh.polygons) e = [(p1, i1)] := hme
          rw [hocc] at hop
          obtain ⟨hp1, hi1⟩ := Prod.mk.injEq .. ▸ List.mem_singleton.mp hop
          subst hp1
          subst hi1
          refine hbed.mpr (Or.inr ⟨e, p, i, lookup_edge_mem set e _ hl, rfl⟩)
        | Connected p1 i1 p2 i2 =>
          have hocc : CoreV1.edge_occurrences
              (CoreV1.mesh_instances 0 mesh.polygons) e =
              [(p1, i1), (p2, i2)] := hme
          rw [hocc] at hlen
          cases hlen

/-- Witness for C3 at the two-triangle mesh: the shared edge (1,2)
produces mutual connectivity entries in both triangles. -/
theorem C3_validate_connectivity_witness :
    ∃ i j,
      (⟨i, 1⟩ : CoreV1.Connectivity) ∈
        CoreV1.two_triangle_valid.connectivity.getD 0 [] ∧
      (⟨j, 0⟩ : CoreV1.Connectivity) ∈
        CoreV1.two_triangle_valid.connectivity.getD 1 [] :=
  (C3_validate_connectivity CoreV1.two_triangle_mesh
    CoreV1.two_triangle_valid (by decide)).2.1 (1, 2) 0 1 (by decide)
    ⟨1, by decide⟩ ⟨2, by decide⟩

/-- Counterexample to C3 as stated: in `double_edge_mesh` the single
polygon traverses edge (0,1) twice; the edge is used by exactly one
polygon, yet the pair (polygon 0, edge 0) is not in `boundary_edges`
(the doubly-traversed edge was classified Connected).  So
`boundary_edges` is not the set of pairs whose edge is used by exactly
one polygon. -/
theorem C3_boundary_edges_counterexample :
    CoreV1.NavigationMesh.validate CoreV1.double_edge_mesh =
      some (Except.ok CoreV1.double_edge_valid) ∧
    ((0, 0), (0, 1)) ∈ CoreV1.mesh_instances 0
      CoreV1.double_edge_mesh.polygons ∧
    (∀ inst ∈ CoreV1.mesh_instances 0 CoreV1.double_edge_mesh.polygons,
      inst.2 = ((0 : ℕ), (1 : ℕ)) → inst.1.1 = 0) ∧
    (⟨0, 0⟩ : CoreV1.MeshEdgeRef) ∉
      CoreV1.double_edge_valid.boundary_edges := by
  refine ⟨by decide, by decide, by decide, by decide⟩

/-- C8: `validate` cannot panic when `mesh_bounds` is provided or the
vertex list is non-empty (it returns `Ok` or a `ValidationError`), but
with `mesh_bounds = None` and an empty vertex list it panics: the
bounds computation assigns zero bounds for the empty case yet still
unwraps the first vertex. -/
theorem C8_validate_panic (mesh : CoreV1.NavigationMesh) :
    (mesh.mesh_bounds.isSome ∨ mesh.vertices ≠ [] →
      (CoreV1.NavigationMesh.validate mesh).isSome) ∧
    (mesh.mesh_bounds = none → mesh.vertices = [] →
      CoreV1.NavigationMesh.validate mesh = none) := by
  constructor
  · intro hcase
    have hb : (CoreV1.compute_mesh_bounds mesh.mesh_bounds
        mesh.vertices).isSome := by
      cases hmb : mesh.mesh_bounds with
      | some bounds => rw [CoreV1.compute_mesh_bounds]; rfl
      | none =>
        have hv : mesh.vertices ≠ [] := by
          rcases hcase with hx | hx
          · rw [hmb] at hx
            cases hx
          · exact hx
        cases hvl : mesh.vertices with
        | nil => exact absurd hvl hv
        | cons v rest => rw [CoreV1.compute_mesh_bounds]; rfl
    obtain ⟨bounds, hbounds⟩ := Option.isSome_iff_exists.mp hb
    rw [CoreV1.NavigationMesh.validate]
    simp only [hbounds, Option.bind_eq_bind, Option.some_bind]
    cases hvp : CoreV1.validate_polygons mesh.vertices 0 mesh.polygons []
      with
    | error e => rfl
    | ok set =>
      have hinv := validate_polygons_matches mesh.vertices mesh.polygons 0
        [] set [] (fun _ => rfl) List.nodup_nil hvp
      have hm : CoreV1.conn_set_matches set
          (CoreV1.mesh_instances 0 mesh.polygons) := by
        have hx := hinv.1
        rwa [List.nil_append] at hx
      have hnodup := hinv.2
      have hdisc : ∀ e,
          (e, CoreV1.ConnectivityState.Disconnected) ∉ set := by
        intro e hmem
        have hme := hm e
        rw [mem_lookup_edge set e _ hnodup hmem] at hme
        exact hme
      have hrange : ∀ e p1 i1 p2 i2,
          (e, CoreV1.ConnectivityState.Connected p1 i1 p2 i2) ∈ set →
          p1 < (List.replicate mesh.polygons.length
            ([] : List CoreV1.Connectivity)).length ∧
          p2 < (List.replicate mesh.polygons.length
            ([] : List CoreV1.Connectivity)).length := by
        intro e p1 i1 p2 i2 hmem
        have hme := hm e
        rw [mem_lookup_edge set e _ hnodup hmem] at hme
        have hocc : CoreV1.edge_occurrences
            (CoreV1.mesh_instances 0 mesh.polygons) e =
            [(p1, i1), (p2, i2)] := hme
        have h1 : ((p1, i1), e) ∈ CoreV1.mesh_instances 0 mesh.polygons :=
          (mem_edge_occurrences _ _ _).mp
            (hocc ▸ List.mem_cons_self _ _)
        have h2 : ((p2, i2), e) ∈ CoreV1.mesh_instances 0 mesh.polygons :=
          (mem_edge_occurrences _ _ _).mp
            (hocc ▸ List.mem_cons_of_mem _ (List.mem_singleton_self _))
        obtain ⟨poly1, _, hget1, _, _⟩ := (mem_mesh_instances _ _ _ _ _).mp h1
        obtain ⟨poly2, _, hget2, _, _⟩ := (mem_mesh_instances _ _ _ _ _).mp h2
        rw [Nat.sub_zero] at hget1 hget2
        rw [List.length_replicate]
        exact ⟨(List.get?_eq_some.mp hget1).1, (List.get?_eq_some.mp hget2).1⟩
      obtain ⟨pair, hpair⟩ := Option.isSome_iff_exists.mp
        (build_connectivity_isSome set
          (List.replicate mesh.polygons.length []) [] hrange hdisc)
      obtain ⟨conn, bed⟩ := pair
      dsimp only
      rw [hpair]
      rfl
  · intro hmb hv
    rw [CoreV1.NavigationMesh.validate, hmb, hv]
    rfl

/-- Witness for C8: the empty mesh with no provided bounds panics. -/
theorem C8_validate_panic_witness :
    CoreV1.NavigationMesh.validate
      ⟨none, none, [], []⟩ = none :=
  (C8_validate_panic ⟨none, none, [], []⟩).2 rfl rfl
